import Mathlib

/-!
# Verification of the answer normalization / validation / template-mapping core

A shallow embedding of `services/excel_filler/app/normalizer.py`,
`validator.py` and `excel_writer.py` (the "billing" repository),
together with proofs of the behavioural claims of the specification.

Modelling conventions:
* Python strings are Lean `String`s; string algorithms are written over
  `List Char` (the `.data` of a string).
* Python functions that may raise an uncaught exception are modelled with
  `Option`: `none` is an escaping exception, `some v` a normal return.
* Python `str.strip()` is `pyStrip` (ASCII whitespace plus the ideographic
  space), `str.lower()`/`str.upper()` are ASCII-only case mapping, exactly
  like CPython on the character classes appearing in the code.
* `re` patterns are hand-compiled to deterministic matchers.  All of the
  patterns in the source (`WAREKI_RE`, `ISO_RE`, `COMMA_RE`, the validator
  shapes, openpyxl's coordinate syntax) are free of ambiguity: every
  starred/plus subpattern is followed by a disjoint character class, so the
  greedy maximal-munch reading implemented here coincides with Python's
  backtracking semantics (for the phone/postal shapes an explicit
  alternative enumeration is used instead).
* Digit classes (`\d`, `str.isdigit`) are modelled over the ASCII digits;
  the few extra Unicode digit code points Python would also accept play no
  role in any claim.
-/

namespace Billing

/-! ## Character and string utilities -/

/-- The whitespace class of Python's `str.strip` / `\s` on the characters the
pipeline can meet (ASCII whitespace and the ideographic space U+3000). -/
def isPySpace (c : Char) : Bool :=
  c = ' ' || c = '\t' || c = '\n' || c = '\r' || c = '\x0b' || c = '\x0c' || c = '　'

def isPyDigit (c : Char) : Bool := '0' ≤ c && c ≤ '9'

def digitVal (c : Char) : Nat := c.toNat - 48

def isAsciiLetter (c : Char) : Bool := ('A' ≤ c && c ≤ 'Z') || ('a' ≤ c && c ≤ 'z')

/-- Python `str.strip()` on the underlying character list. -/
def trimChars (l : List Char) : List Char :=
  ((l.dropWhile isPySpace).reverse.dropWhile isPySpace).reverse

/-- Python `str.strip()`. -/
def pyStrip (s : String) : String := String.mk (trimChars s.data)

/-- Python `str.lower()` (ASCII case mapping). -/
def lowerStr (s : String) : String := String.mk (s.data.map Char.toLower)

/-- Python `str.upper()` (ASCII case mapping). -/
def upperStr (s : String) : String := String.mk (s.data.map Char.toUpper)

/-- `listStartsWith l p` : does `l` start with `p`? -/
def listStartsWith : List Char → List Char → Bool
  | _, [] => true
  | [], _ :: _ => false
  | a :: as, b :: bs => a = b && listStartsWith as bs

/-- `listHasSub l p` : does `p` occur as a contiguous sublist of `l`?
Models Python's `p in l` on strings. -/
def listHasSub : List Char → List Char → Bool
  | [], p => p.isEmpty
  | l@(_ :: rest), p => listStartsWith l p || listHasSub rest p

/-- Python `needle in hay` for strings. -/
def strHas (hay needle : String) : Bool := listHasSub hay.data needle.data

/-- Maximal digit prefix: `splitDigits l = (digits, rest)`. -/
def splitDigits : List Char → List Char × List Char
  | [] => ([], [])
  | c :: r =>
    if isPyDigit c then
      let p := splitDigits r
      (c :: p.1, p.2)
    else ([], c :: r)

/-- Maximal ASCII-letter prefix. -/
def splitLetters : List Char → List Char × List Char
  | [] => ([], [])
  | c :: r =>
    if isAsciiLetter c then
      let p := splitLetters r
      (c :: p.1, p.2)
    else ([], c :: r)

/-- Split at the first occurrence of `c` (Python `s.split(c, 1)` when it
occurs); `none` when `c` does not occur. -/
def splitAtFirstOpt (c : Char) : List Char → Option (List Char × List Char)
  | [] => none
  | a :: r =>
    if a = c then some ([], r)
    else (splitAtFirstOpt c r).map (fun p => (a :: p.1, p.2))

/-- Python `s.split(c)` (on a single-character separator). -/
def splitOnChar (c : Char) : List Char → List (List Char)
  | [] => [[]]
  | a :: r =>
    let rest := splitOnChar c r
    if a = c then [] :: rest
    else
      match rest with
      | h :: t => (a :: h) :: t
      | [] => [[a]]

/-- Decimal value of a digit string (Python `int` on a digit literal,
leading zeros allowed). -/
def natOfDigits (l : List Char) : Nat := l.foldl (fun acc c => acc * 10 + digitVal c) 0

def digitChar (n : Nat) : Char := Char.ofNat (48 + n)

/-- Canonical decimal digits of a natural number, most significant first
(fuel-structured so that it evaluates inside the kernel). -/
def natDigitsAux : Nat → Nat → List Char
  | 0, _ => []
  | fuel + 1, n => if n < 10 then [digitChar n] else natDigitsAux fuel (n / 10) ++ [digitChar (n % 10)]

/-- Python `str` of a non-negative integer. -/
def natDigits (n : Nat) : List Char := natDigitsAux (n + 1) n

def natStr (n : Nat) : String := String.mk (natDigits n)

/-- Python `str` of an integer. -/
def intChars (n : Int) : List Char :=
  if n < 0 then '-' :: natDigits n.natAbs else natDigits n.toNat

/-! ## Calendar arithmetic (`datetime.date`) -/

def isLeap (y : Nat) : Bool := (y % 4 = 0 && y % 100 ≠ 0) || y % 400 = 0

def daysInMonth (y m : Nat) : Nat :=
  if m = 2 then (if isLeap y then 29 else 28)
  else if m = 4 || m = 6 || m = 9 || m = 11 then 30
  else 31

/-- `datetime.date(y, m, d)` succeeds exactly on these triples
(CPython restricts years to `1..9999`). -/
def validDate (y m d : Nat) : Bool :=
  1 ≤ y && y ≤ 9999 && 1 ≤ m && m ≤ 12 && 1 ≤ d && d ≤ daysInMonth y m

def padLeftZeros (l : List Char) (n : Nat) : List Char :=
  List.replicate (n - l.length) '0' ++ l

def pad4 (n : Nat) : List Char := padLeftZeros (natDigits n) 4

def pad2 (n : Nat) : List Char := padLeftZeros (natDigits n) 2

/-- `date(y, m, d).isoformat()`: zero-padded `YYYY-MM-DD`. -/
def isoFormatL (y m d : Nat) : List Char :=
  pad4 y ++ '-' :: (pad2 m ++ '-' :: pad2 d)

def isoFormat (y m d : Nat) : String := String.mk (isoFormatL y m d)

/-! ## `normalizer.py` -/

/-- The character class removed by `COMMA_RE` (`[,，\s円¥]`, applied
globally by `re.sub`). -/
def isCommaClass (c : Char) : Bool :=
  c = ',' || c = '，' || c = '円' || c = '¥' || isPySpace c

/-- `re.fullmatch(r"-?\d+", ·)`. -/
def isSignedDigitsL : List Char → Bool
  | [] => false
  | c :: t => if c = '-' then !t.isEmpty && t.all isPyDigit else (c :: t).all isPyDigit

/-- Python `int` on a string matching `-?\d+`. -/
def intOfSigned : List Char → Int
  | [] => 0
  | c :: t => if c = '-' then -(natOfDigits t : Int) else (natOfDigits (c :: t) : Int)

/-- `str(int(·))` on a string matching `-?\d+`. -/
def intCanonL (l : List Char) : List Char := intChars (intOfSigned l)

/-- `normalizer._to_int_like`. -/
def to_int_like (value : String) : String :=
  let cleaned := value.data.filter (fun c => !isCommaClass c)
  if cleaned.isEmpty then ""
  else if !isSignedDigitsL cleaned then value
  else String.mk (intCanonL cleaned)

/-- Consume one expected literal character. -/
def expectChar (c : Char) : List Char → Option (List Char)
  | [] => none
  | a :: r => if a = c then some r else none

/-- Attempt of `WAREKI_RE` (`令和\s*(\d+)\s*年\s*(\d+)\s*月\s*(\d+)\s*日`)
anchored at the head of the list.  The pattern is backtracking-free: each
`\s*`/`\d+` is followed by a character outside its class, so maximal munch
matches Python's semantics. -/
def warekiAt (l : List Char) : Option (Nat × Nat × Nat) :=
  match expectChar '令' l with
  | none => none
  | some l1 =>
    match expectChar '和' l1 with
    | none => none
    | some r0 =>
      let p1 := splitDigits (r0.dropWhile isPySpace)
      if p1.1.isEmpty then none
      else
        match expectChar '年' (p1.2.dropWhile isPySpace) with
        | none => none
        | some r4 =>
          let p2 := splitDigits (r4.dropWhile isPySpace)
          if p2.1.isEmpty then none
          else
            match expectChar '月' (p2.2.dropWhile isPySpace) with
            | none => none
            | some r8 =>
              let p3 := splitDigits (r8.dropWhile isPySpace)
              if p3.1.isEmpty then none
              else
                match expectChar '日' (p3.2.dropWhile isPySpace) with
                | none => none
                | some _ => some (natOfDigits p1.1, natOfDigits p2.1, natOfDigits p3.1)

/-- `WAREKI_RE.search`: leftmost match. -/
def warekiSearch : List Char → Option (Nat × Nat × Nat)
  | [] => none
  | l@(_ :: rest) =>
    match warekiAt l with
    | some v => some v
    | none => warekiSearch rest

/-- `normalizer._wareki_to_iso` (the `try/except ValueError` around
`date(...)` is the `validDate` guard). -/
def wareki_to_iso (value : String) : String :=
  match warekiSearch value.data with
  | none => value
  | some (ry, m, d) =>
    let western := ry + 2018
    if validDate western m d then isoFormat western m d else value

/-- `ISO_RE`: four year digits, a separator (dash or slash), one or two
month digits, a separator, one or two day digits, end of string — as a
full-string matcher returning the three groups. -/
def isoMatch (l : List Char) : Option (Nat × Nat × Nat) :=
  let py := splitDigits l
  if py.1.length ≠ 4 then none
  else
    match py.2 with
    | s1 :: r2 =>
      if s1 = '-' || s1 = '/' then
        let pm := splitDigits r2
        if pm.1.length = 0 || pm.1.length > 2 then none
        else
          match pm.2 with
          | s2 :: r4 =>
            if s2 = '-' || s2 = '/' then
              let pd := splitDigits r4
              if pd.1.length = 0 || pd.1.length > 2 || !pd.2.isEmpty then none
              else some (natOfDigits py.1, natOfDigits pm.1, natOfDigits pd.1)
            else none
          | [] => none
      else none
    | [] => none

/-- `normalizer._iso_to_wareki`. -/
def iso_to_wareki (value : String) : String :=
  match isoMatch value.data with
  | none => value
  | some (y, m, d) =>
    if validDate y m d then
      if y < 2019 then
        String.mk (natDigits y ++ ('年' :: (natDigits m ++ ('月' :: (natDigits d ++ ['日'])))))
      else
        String.mk ('令' :: '和' ::
          (natDigits (y - 2018) ++ ('年' :: (natDigits m ++ ('月' :: (natDigits d ++ ['日']))))))
    else value

/-- The truthy token set of the checkbox branch. -/
def truthyTokens : List String := ["1", "true", "yes", "on", "レ"]

/-- `normalizer.normalize_value` on a string input.
`none` models the uncaught `ValueError` that `datetime.strptime` raises on
an ISO-shaped string that is not a real calendar date (that call, unlike
`_wareki_to_iso`/`_iso_to_wareki`, is not wrapped in `try/except`). -/
def normalize_value (raw_value : String) (fmt : String) : Option String :=
  let raw := pyStrip raw_value
  if raw = "" then some ""
  else
    let fmtLower := lowerStr fmt
    if strHas fmtLower "yyyy" || strHas fmt "日付" || strHas fmt "和暦" then
      if listStartsWith raw.data ['令', '和'] then some (wareki_to_iso raw)
      else
        match isoMatch raw.data with
        | some (y, m, d) => if validDate y m d then some (isoFormat y m d) else none
        | none => some raw
    else if strHas fmt "金額" || strHas fmtLower "currency" then some (to_int_like raw)
    else if strHas fmt "数字" || strHas fmtLower "number" then some (to_int_like raw)
    else if strHas fmtLower "checkbox" then
      some (if truthyTokens.contains (lowerStr raw) then "true" else "false")
    else some raw

/-- Spreadsheet cell values: Python `int` or `str`. -/
inductive ExcelValue where
  | int : Int → ExcelValue
  | str : String → ExcelValue
deriving DecidableEq, Repr

/-- Python `str(value)` on a cell value. -/
def pyStr : ExcelValue → String
  | .int n => String.mk (intChars n)
  | .str s => s

/-- `normalizer.to_excel_value` (denormalization). -/
def to_excel_value (norm_value : String) (value_type : String) : ExcelValue :=
  if norm_value = "" then .str ""
  else
    let vt := lowerStr (if value_type = "" then "text" else value_type)
    if vt = "text" || vt = "text_multiline" then .str norm_value
    else if vt = "number" || vt = "currency" then
      let il := to_int_like norm_value
      if isSignedDigitsL il.data then .int (intOfSigned il.data) else .str norm_value
    else if vt = "checkbox" then
      .str (if truthyTokens.contains (lowerStr norm_value) then "レ" else "")
    else if vt = "date_wareki" then .str (iso_to_wareki norm_value)
    else if vt = "date_iso" then
      .str (if listStartsWith norm_value.data ['令', '和'] then wareki_to_iso norm_value else norm_value)
    else .str norm_value

/-- `normalizer.normalize_answers` (the answer map is an insertion-ordered
association list, like a Python `dict`); `none` propagates the
`normalize_value` exception. -/
def normalize_answers (answers : List (String × String))
    (field_fmt : String → String) : Option (List (String × (String × String))) :=
  match answers with
  | [] => some []
  | (fid, raw_value) :: rest =>
    let raw := pyStrip raw_value
    match normalize_value raw (field_fmt fid) with
    | none => none
    | some norm =>
      match normalize_answers rest field_fmt with
      | none => none
      | some tl => some ((fid, (raw, norm)) :: tl)

/-! ## `excel_writer.py`: type inference, target parsing, range filling -/

/-- `excel_writer.infer_value_type`. -/
def infer_value_type (fmt : String) : String :=
  let lowered := lowerStr fmt
  if strHas fmt "和暦" then "date_wareki"
  else if strHas lowered "yyyy" || strHas fmt "日付" then "date_iso"
  else if strHas fmt "金額" then "currency"
  else if strHas fmt "数字" then "number"
  else if strHas lowered "checkbox" || strHas fmt "チェック" then "checkbox"
  else if strHas fmt "改行" || strHas fmt "複数行" then "text_multiline"
  else "text"

/-- `excel_writer._parse_target_segment`. -/
def parse_target_segment (segment : String) (default_sheet : Option String) :
    Option (String × String) :=
  let cleaned := pyStrip segment
  if cleaned = "" then none
  else if strHas cleaned "!" then
    match splitAtFirstOpt '!' cleaned.data with
    | some (a, b) => some (pyStrip (String.mk a), pyStrip (String.mk b))
    | none => none
  else
    match default_sheet with
    | some ds => some (ds, cleaned)
    | none => none

/-- `excel_writer.parse_targets`. -/
def parse_targets (cell_spec : String) (default_sheet : Option String) :
    List (String × String) :=
  if cell_spec = "" then []
  else
    let segments :=
      (splitOnChar ';' (cell_spec.data.map (fun c => if c = '\n' then ';' else c))).map
        (fun l => pyStrip (String.mk l))
    segments.filterMap (fun seg => parse_target_segment seg default_sheet)

def letterVal (c : Char) : Nat :=
  if 'a' ≤ c && c ≤ 'z' then c.toNat - 96 else c.toNat - 64

def colIndex (l : List Char) : Nat := l.foldl (fun acc c => acc * 26 + letterVal c) 0

/-- openpyxl coordinate syntax (`[$]?[A-Za-z]{1,3}[$]?\d+`, column at most
`XFD` = 16384, row at least 1), returning `(column, row)`; `none` models
the `ValueError` openpyxl raises on anything else. -/
def parse_coordinate (l : List Char) : Option (Nat × Nat) :=
  let l1 := match l with | '$' :: r => r | _ => l
  let pl := splitLetters l1
  if pl.1.isEmpty || pl.1.length > 3 then none
  else
    let r2 := match pl.2 with | '$' :: r => r | _ => pl.2
    let pd := splitDigits r2
    if pd.1.isEmpty || !pd.2.isEmpty then none
    else
      let row := natOfDigits pd.1
      let col := colIndex pl.1
      if row = 0 || col > 16384 then none else some (col, row)

/-- `openpyxl.utils.cell.range_boundaries` restricted to the
`cell:cell` ranges the writer can reach (`none` is the openpyxl
`ValueError`); boundaries are returned unnormalized, as in openpyxl:
`(min_col, min_row, max_col, max_row)`. -/
def range_boundaries (l : List Char) : Option (Nat × Nat × Nat × Nat) :=
  match splitAtFirstOpt ':' l with
  | none => none
  | some (p1, p2) =>
    match parse_coordinate p1, parse_coordinate p2 with
    | some (c1, r1), some (c2, r2) => some (c1, r1, c2, r2)
    | _, _ => none

/-- One character per cell, cells beyond the string padded with `""`. -/
def padCell (chars : List Char) (i : Nat) : ExcelValue :=
  match chars.get? i with
  | some c => .str (String.mk [c])
  | none => .str ""

/-- The running-index loop body shared by the three shapes of
`_fill_linear_range`: write `chars[idx]`-or-`""` at each position,
incrementing `idx` per cell. -/
def fillSeq (chars : List Char) : List (Nat × Nat) → Nat → List (Nat × Nat × ExcelValue)
  | [], _ => []
  | p :: ps, idx => (p.1, p.2, padCell chars idx) :: fillSeq chars ps (idx + 1)

def rowPositions (row minCol maxCol : Nat) : List (Nat × Nat) :=
  (List.range (maxCol + 1 - minCol)).map (fun i => (row, minCol + i))

def colPositions (col minRow maxRow : Nat) : List (Nat × Nat) :=
  (List.range (maxRow + 1 - minRow)).map (fun i => (minRow + i, col))

def gridPositions (minCol minRow maxCol maxRow : Nat) : List (Nat × Nat) :=
  (List.range (maxRow + 1 - minRow)).flatMap
    (fun r => (List.range (maxCol + 1 - minCol)).map (fun c => (minRow + r, minCol + c)))

/-- `excel_writer._fill_linear_range` on resolved boundaries, returning the
`(row, column, value)` writes it performs, in order. -/
def fill_linear (minCol minRow maxCol maxRow : Nat) (value : ExcelValue) :
    List (Nat × Nat × ExcelValue) :=
  if minCol = maxCol && minRow = maxRow then [(minRow, minCol, value)]
  else
    let chars := (pyStr value).data
    if minRow = maxRow then fillSeq chars (rowPositions minRow minCol maxCol) 0
    else if minCol = maxCol then fillSeq chars (colPositions minCol minRow maxRow) 0
    else fillSeq chars (gridPositions minCol minRow maxCol maxRow) 0

/-- `excel_writer._fill_linear_range` (boundary resolution included). -/
def fill_linear_range (cell_range : String) (value : ExcelValue) :
    Option (List (Nat × Nat × ExcelValue)) :=
  match range_boundaries cell_range.data with
  | none => none
  | some (minCol, minRow, maxCol, maxRow) => some (fill_linear minCol minRow maxCol maxRow value)

/-- `excel_writer._write_to_target`: the `(row, column, value)` cell
assignments, `none` an escaping openpyxl `ValueError`. -/
def write_to_target (target : String) (value : ExcelValue) :
    Option (List (Nat × Nat × ExcelValue)) :=
  if strHas target ":" then fill_linear_range target value
  else
    match parse_coordinate target.data with
    | none => none
    | some (col, row) => some [(row, col, value)]

/-! ## `excel_writer.write_templates` -/

/-- A loaded workbook, abstracted to what the writer observes. -/
structure Workbook where
  sheetnames : List String
deriving DecidableEq, Repr

/-- An explicit per-field mapping entry (`{sheet, cell, type}`); absent
`type` is the Python default `"text"`. -/
structure XConf where
  sheet : String
  cell : String
  vtype : String
deriving DecidableEq, Repr

/-- One template spec of the mapping configuration. `template_key = none`
is an absent key (Python then defaults it to the stripped source file). -/
structure TemplateSpec where
  source_file : String
  output_file : String
  template_key : Option String
  mappings : List (String × XConf)
  source_form_files : List String
deriving DecidableEq, Repr

/-- A catalog field record, with the keys the validator and the writer
read. -/
structure SchemaField where
  field_id : String
  form_file : String
  cell_range : String
  format : String
  required : String
deriving DecidableEq, Repr

structure MappingNote where
  field_id : String
  template : String
  level : String
  message : String
deriving DecidableEq, Repr

/-- One performed cell assignment, instrumented with the pass (1 explicit,
2 auto) and field that caused it. -/
structure CellWrite where
  pass : Nat
  field_id : String
  sheet : String
  row : Nat
  col : Nat
  value : ExcelValue
deriving DecidableEq, Repr

/-- `answers_norm.get(field_id, "")`. -/
def lookupStr (l : List (String × String)) (k : String) : String :=
  match l.find? (fun p => p.1 == k) with
  | some p => p.2
  | none => ""

def invalid_cell_note (fid tkey : String) : MappingNote :=
  ⟨fid, tkey, "warning", "マッピング先セルが不正です。"⟩

def missing_sheet_note (fid tkey sheet : String) : MappingNote :=
  ⟨fid, tkey, "warning", "シートが見つかりません: " ++ sheet⟩

/-- The per-target loop shared by both passes: a missing sheet appends one
warning note and continues; a present sheet performs the write (whose
failure is an escaping exception, `none`). -/
def write_targets_loop (wb : Workbook) (tkey fid : String) (passNo : Nat) (ev : ExcelValue) :
    List (String × String) → Option (List MappingNote × List CellWrite)
  | [] => some ([], [])
  | (ts, tc) :: rest =>
    if wb.sheetnames.contains ts then
      match write_to_target tc ev with
      | none => none
      | some cells =>
        match write_targets_loop wb tkey fid passNo ev rest with
        | none => none
        | some (ns, ws) =>
          some (ns, cells.map (fun c => ⟨passNo, fid, ts, c.1, c.2.1, c.2.2⟩) ++ ws)
    else
      match write_targets_loop wb tkey fid passNo ev rest with
      | none => none
      | some (ns, ws) => some (missing_sheet_note fid tkey ts :: ns, ws)

/-- Pass 1 body for one explicit mapping entry. -/
def pass1_field (answers : List (String × String)) (wb : Workbook) (tkey : String)
    (fid : String) (conf : XConf) : Option (List MappingNote × List CellWrite) :=
  let answer := lookupStr answers fid
  if answer = "" then some ([], [])
  else
    let sheet_name := pyStrip conf.sheet
    let cell_spec := pyStrip conf.cell
    let value_type := pyStrip conf.vtype
    let spec :=
      if sheet_name ≠ "" && !strHas cell_spec "!" then sheet_name ++ "!" ++ cell_spec
      else cell_spec
    let targets := parse_targets spec none
    if targets.isEmpty then some ([invalid_cell_note fid tkey], [])
    else write_targets_loop wb tkey fid 1 (to_excel_value answer value_type) targets

/-- Pass 2 body for one normalized answer. -/
def pass2_field (schema : List SchemaField) (explicit_ids : List String)
    (source_form_files : List String) (wb : Workbook) (tkey : String)
    (fid answer : String) : Option (List MappingNote × List CellWrite) :=
  if answer = "" || explicit_ids.contains fid then some ([], [])
  else
    match schema.find? (fun f => f.field_id == fid) with
    | none => some ([], [])
    | some field =>
      let form_file := pyStrip field.form_file
      if !source_form_files.contains form_file then some ([], [])
      else
        let cell_range := pyStrip field.cell_range
        if cell_range = "" then some ([], [])
        else
          let ev := to_excel_value answer (infer_value_type field.format)
          let targets := parse_targets cell_range none
          if targets.isEmpty then
            some ([⟨fid, tkey, "warning", "cell_range の解析に失敗: " ++ cell_range⟩], [])
          else write_targets_loop wb tkey fid 2 ev targets

/-- Accumulate an `Option`-returning per-item body over a list, concatenating
notes and writes in iteration order; `none` (an exception) aborts. -/
def accumOpt (f : α → Option (List MappingNote × List CellWrite)) :
    List α → Option (List MappingNote × List CellWrite)
  | [] => some ([], [])
  | a :: r =>
    match f a with
    | none => none
    | some (n1, w1) =>
      match accumOpt f r with
      | none => none
      | some (n2, w2) => some (n1 ++ n2, w1 ++ w2)

/-- The last path component (Python `pathlib.Path(...).name`). -/
def lastComponent (l : List Char) : List Char :=
  (splitOnChar '/' l).getLastD []

/-- Python `pathlib.Path(...).suffix`. -/
def pySuffix (s : String) : String :=
  let b := lastComponent s.data
  match splitAtFirstOpt '.' b.reverse with
  | none => ""
  | some (extRev, nameRev) =>
    if nameRev.isEmpty || extRev.isEmpty then "" else String.mk ('.' :: extRev.reverse)

/-- The output filename a template saves to
(`str(template.get("output_file", "")).strip() or f"filled_{source_file}"`). -/
def output_name (tpl : TemplateSpec) : String :=
  if pyStrip tpl.output_file = "" then "filled_" ++ pyStrip tpl.source_file
  else pyStrip tpl.output_file

/-- The result of processing one template: the saved output filename (if
the template was not skipped), its notes and its instrumented writes. -/
structure TemplateResult where
  output : Option String
  notes : List MappingNote
  writes : List CellWrite
deriving DecidableEq, Repr

/-- The body of the per-template loop of `excel_writer.write_templates`.
The filesystem is the association of source filenames to loaded workbooks;
`none` models an exception escaping the passes. -/
def process_template (answers : List (String × String)) (schema : List SchemaField)
    (fs : List (String × Workbook)) (tpl : TemplateSpec) : Option TemplateResult :=
  let source_file := pyStrip tpl.source_file
  let tkey := pyStrip (tpl.template_key.getD source_file)
  match fs.find? (fun p => p.1 == source_file) with
  | none =>
    some ⟨none,
      [⟨"*", tkey, "error", "テンプレートファイルが見つかりません: " ++
        String.mk (lastComponent source_file.data)⟩], []⟩
  | some wbp =>
    if lowerStr (pySuffix source_file) = ".xls" then
      some ⟨none,
        [⟨"*", tkey, "warning",
          ".xls は直接編集できないため未出力です。convert_xls.sh で .xlsx 化してください。"⟩], []⟩
    else
      let wb := wbp.2
      let explicit_ids := tpl.mappings.map Prod.fst
      let sff0 := if tpl.source_form_files.isEmpty then [source_file] else tpl.source_form_files
      let sff := (sff0.map pyStrip).filter (fun x => x ≠ "")
      match accumOpt (fun p : String × XConf => pass1_field answers wb tkey p.1 p.2) tpl.mappings with
      | none => none
      | some (n1, w1) =>
        match accumOpt (fun p : String × String =>
            pass2_field schema explicit_ids sff wb tkey p.1 p.2) answers with
        | none => none
        | some (n2, w2) => some ⟨some (output_name tpl), n1 ++ n2, w1 ++ w2⟩

/-- The observable result of `write_templates`: produced output filenames
and mapping notes, plus the instrumented writes tagged with the index of
the template that performed them. -/
structure WriteResult where
  output_files : List String
  mapping_notes : List MappingNote
  writes : List (Nat × CellWrite)
deriving DecidableEq, Repr

def write_templates_go (answers : List (String × String)) (schema : List SchemaField)
    (fs : List (String × Workbook)) : Nat → List TemplateSpec → Option WriteResult
  | _, [] => some ⟨[], [], []⟩
  | i, t :: ts =>
    match process_template answers schema fs t with
    | none => none
    | some r =>
      match write_templates_go answers schema fs (i + 1) ts with
      | none => none
      | some rest =>
        some ⟨(match r.output with
                | some o => o :: rest.output_files
                | none => rest.output_files),
              r.notes ++ rest.mapping_notes,
              r.writes.map (fun w => (i, w)) ++ rest.writes⟩

/-- `excel_writer.write_templates`: fold the per-template body over the
mapping configuration; `none` is an exception escaping the whole call (the
caller then receives no result at all). -/
def write_templates (answers : List (String × String)) (schema : List SchemaField)
    (fs : List (String × Workbook)) (templates : List TemplateSpec) : Option WriteResult :=
  write_templates_go answers schema fs 0 templates

/-! ## `validator.py` -/

/-- A stored normalized answer: `{raw, norm}`. -/
structure NormAnswer where
  raw : String
  norm : String
deriving DecidableEq, Repr

structure VIssue where
  field_id : String
  severity : String
  message : String
deriving DecidableEq, Repr

/-- `validator.UNKNOWN_MARKERS`. -/
def UNKNOWN_MARKERS : List String := ["不明", "要確認", "対象外", "unknown", "todo"]

/-- `validator._required_flag`. -/
def required_flag (required : String) : Bool :=
  ["true", "1", "yes", "必須", "required"].contains (lowerStr (pyStrip required)) ||
    strHas required "必須"

/-- `normalized_answers.get(field_id, {"raw": "", "norm": ""})`. -/
def lookupAnswer (answers : List (String × NormAnswer)) (fid : String) : NormAnswer :=
  match answers.find? (fun p => p.1 == fid) with
  | some p => p.2
  | none => ⟨"", ""⟩

/-- `NUMERIC_RE` = `^\d+$` (`fullmatch`). -/
def numericFull (l : List Char) : Bool := !l.isEmpty && l.all isPyDigit

/-- Consume exactly `n` digits. -/
def takeDigitsN : Nat → List Char → Option (List Char)
  | 0, l => some l
  | n + 1, c :: r => if isPyDigit c then takeDigitsN n r else none
  | _ + 1, [] => none

/-- An optional hyphen: the remainders reachable by `-?`. -/
def afterOptHyphen : List Char → List (List Char)
  | '-' :: r => [r, '-' :: r]
  | l => [l]

/-- `PHONE_RE` = `^\d{2,4}-?\d{2,4}-?\d{3,4}$` (`fullmatch`), decided by
enumerating the finitely many digit-group splits. -/
def phoneMatch (l : List Char) : Bool :=
  [2, 3, 4].any fun i =>
    ((takeDigitsN i l).toList.any fun r1 =>
      (afterOptHyphen r1).any fun r2 =>
        [2, 3, 4].any fun j =>
          ((takeDigitsN j r2).toList.any fun r3 =>
            (afterOptHyphen r3).any fun r4 =>
              [3, 4].any fun k =>
                ((takeDigitsN k r4).toList.any fun r5 => r5.isEmpty)))

/-- `POSTAL_RE` = `^\d{3}-?\d{4}$`; the pattern is anchored at both ends,
so `.search` coincides with a full match. -/
def postalSearch (l : List Char) : Bool :=
  (takeDigitsN 3 l).toList.any fun r1 =>
    (afterOptHyphen r1).any fun r2 =>
      (takeDigitsN 4 r2).toList.any fun r3 => r3.isEmpty

/-- The required-field block of the validator loop body (`raw` is already
stripped). -/
def required_block (fid raw : String) (required : String) : List VIssue :=
  if required_flag required then
    if raw = "" then [⟨fid, "error", "必須項目が未入力です。"⟩]
    else if UNKNOWN_MARKERS.contains (lowerStr raw) || UNKNOWN_MARKERS.contains raw then
      [⟨fid, "warning", "必須項目ですが『要確認/不明』として保存されています。"⟩]
    else []
  else []

/-- The numeric-shape check of the validator loop body. -/
def numeric_check (fid fmt norm : String) : List VIssue :=
  if (strHas fmt "数字" || strHas (lowerStr fmt) "number") && !numericFull norm.data then
    [⟨fid, "warning", "数字形式が期待されます。"⟩] else []

/-- The phone-shape check of the validator loop body. -/
def phone_check (fid fmt norm : String) : List VIssue :=
  if (strHas fmt "電話" || strHas (lowerStr fmt) "0xx") && !phoneMatch norm.data then
    [⟨fid, "warning", "電話番号の形式を確認してください（例: 019-1234-5678）。"⟩] else []

/-- The postal-code check of the validator loop body. -/
def postal_check (fid fmt norm : String) : List VIssue :=
  if (strHas fmt "郵便" || strHas fmt "〒" || strHas fmt "郵便番号") && !postalSearch norm.data then
    [⟨fid, "warning", "郵便番号形式を確認してください（例: 123-4567）。"⟩] else []

/-- The date-shape check of the validator loop body. -/
def date_check (fid fmt norm : String) : List VIssue :=
  if (strHas (lowerStr fmt) "yyyy" || strHas fmt "日付" || strHas fmt "和暦") &&
      !((isoMatch norm.data).isSome || listStartsWith norm.data ['令', '和']) then
    [⟨fid, "warning", "日付形式が不正です（YYYY-MM-DD または 令和X年Y月Z日）。"⟩] else []

/-- The per-field body of `validator.validate_answers` (one iteration of
the catalog loop). -/
def field_issues (answers : List (String × NormAnswer)) (field : SchemaField) :
    List VIssue :=
  let fid := pyStrip field.field_id
  if fid = "" then []
  else
    let a := lookupAnswer answers fid
    let raw := pyStrip a.raw
    let norm := pyStrip a.norm
    let fmt := field.format
    if norm = "" then required_block fid raw field.required
    else
      required_block fid raw field.required ++ numeric_check fid fmt norm ++
        phone_check fid fmt norm ++ postal_check fid fmt norm ++ date_check fid fmt norm

/-- One step of the vehicle/driver scan (later digit-valued matches
overwrite earlier ones). -/
def cross_fold (acc : Option Nat × Option Nat) (p : String × NormAnswer) :
    Option Nat × Option Nat :=
  let value := p.2.norm
  if !numericFull value.data then acc
  else
    let upper := upperStr p.1
    (if strHas upper "VEHICLE" || strHas upper "CAR" || strHas upper "車両" then
        some (natOfDigits value.data) else acc.1,
     if strHas upper "DRIVER" || strHas upper "運転者" then
        some (natOfDigits value.data) else acc.2)

def cross_check_issue : VIssue :=
  ⟨"_cross_check", "warning", "運転者数が車両数を下回っています。整合性を確認してください。"⟩

/-- The trailing cross-check block of `validate_answers`: scan all
normalized answers, last match of each kind wins, warn when the driver
count is below the vehicle count. -/
def cross_issues (answers : List (String × NormAnswer)) : List VIssue :=
  match answers.foldl cross_fold (none, none) with
  | (some vc, some dc) => if dc < vc then [cross_check_issue] else []
  | _ => []

/-- `validator.validate_answers`. -/
def validate_answers (fields : List SchemaField) (answers : List (String × NormAnswer)) :
    List VIssue :=
  (fields.flatMap (field_issues answers)) ++ cross_issues answers

/-! ## Spec-side definition for the refinement claim C3 -/

/-- Modelled from the spec (§4.1, §4.3): "the classification applied by
normalize", reindexed by the mapping engine's value-type tag — applies the
normalization transformation of the class that the tag names (`date_wareki`
and `date_iso` are both the date class; `currency` and `number` both the
integer class; `text` and `text_multiline` both passthrough).  This is the
spec's comparison point, not code of the repository. -/
def normalize_by_class (vt : String) (raw_value : String) : Option String :=
  let raw := pyStrip raw_value
  if raw = "" then some ""
  else if vt = "date_wareki" || vt = "date_iso" then
    if listStartsWith raw.data ['令', '和'] then some (wareki_to_iso raw)
    else
      match isoMatch raw.data with
      | some (y, m, d) => if validDate y m d then some (isoFormat y m d) else none
      | none => some raw
  else if vt = "currency" || vt = "number" then some (to_int_like raw)
  else if vt = "checkbox" then
    some (if truthyTokens.contains (lowerStr raw) then "true" else "false")
  else some raw

/-! ## Helper lemmas: whitespace trimming -/

theorem dropWhile_self {p : Char → Bool} :
    ∀ l : List Char, (l.dropWhile p).dropWhile p = l.dropWhile p := by
  intro l
  induction l with
  | nil => rfl
  | cons c t ih =>
    by_cases h : p c = true
    · simp [List.dropWhile_cons, h, ih]
    · simp [List.dropWhile_cons, h]

theorem dropWhile_eq_self_of_all {p : Char → Bool} {l : List Char}
    (h : ∀ c ∈ l, p c = false) : l.dropWhile p = l := by
  cases l with
  | nil => rfl
  | cons c t => simp [List.dropWhile_cons, h c (by simp)]

theorem dropWhile_head_false {p : Char → Bool} :
    ∀ {l : List Char} {c t}, l.dropWhile p = c :: t → p c = false := by
  intro l
  induction l with
  | nil => intro c t h; simp at h
  | cons a r ih =>
    intro c t h
    by_cases ha : p a = true
    · exact ih (by simpa [List.dropWhile_cons, ha] using h)
    · rw [List.dropWhile_cons] at h
      simp only [ha, if_neg] at h
      cases h
      simpa using ha

theorem trimChars_of_all {l : List Char} (h : ∀ c ∈ l, isPySpace c = false) :
    trimChars l = l := by
  unfold trimChars
  rw [dropWhile_eq_self_of_all h,
    dropWhile_eq_self_of_all (by intro c hc; exact h c (by simpa using hc)),
    List.reverse_reverse]

/-- The head of a trimmed list is not a space. -/
theorem trimChars_head_false {l : List Char} {c : Char} {t : List Char}
    (h : trimChars l = c :: t) : isPySpace c = false := by
  unfold trimChars at h
  have h1 : (l.dropWhile isPySpace).reverse.dropWhile isPySpace = t.reverse ++ [c] := by
    have := congrArg List.reverse h
    simpa using this
  have hdec := List.takeWhile_append_dropWhile (p := isPySpace)
      (l := (l.dropWhile isPySpace).reverse)
  rw [h1] at hdec
  have h2 : l.dropWhile isPySpace =
      c :: ((l.dropWhile isPySpace).reverse.takeWhile isPySpace ++ t.reverse).reverse := by
    have := congrArg List.reverse hdec
    simpa [List.reverse_append] using this.symm
  exact dropWhile_head_false h2

theorem trimChars_idem (l : List Char) : trimChars (trimChars l) = trimChars l := by
  have hA : (trimChars l).dropWhile isPySpace = trimChars l := by
    cases h : trimChars l with
    | nil => rfl
    | cons c t => simp [List.dropWhile_cons, trimChars_head_false h]
  have hB : ((trimChars l).reverse).dropWhile isPySpace = (trimChars l).reverse := by
    show ((((l.dropWhile isPySpace).reverse.dropWhile isPySpace).reverse).reverse).dropWhile
        isPySpace = _
    rw [List.reverse_reverse, dropWhile_self]
    simp [trimChars]
  show (((trimChars l).dropWhile isPySpace).reverse.dropWhile isPySpace).reverse = _
  rw [hA, hB, List.reverse_reverse]

theorem string_data_mk (l : List Char) : (String.mk l).data = l := rfl

theorem pyStrip_idem (s : String) : pyStrip (pyStrip s) = pyStrip s := by
  unfold pyStrip
  rw [string_data_mk, trimChars_idem]

theorem pyStrip_of_all {s : String} (h : ∀ c ∈ s.data, isPySpace c = false) :
    pyStrip s = s := by
  unfold pyStrip
  rw [trimChars_of_all h]

/-! ## Helper lemmas: decimal digits -/

theorem digitChar_digit {k : Nat} (h : k < 10) : isPyDigit (digitChar k) = true := by
  interval_cases k <;> decide

theorem digitVal_digitChar {k : Nat} (h : k < 10) : digitVal (digitChar k) = k := by
  interval_cases k <;> decide

theorem natDigitsAux_fuel :
    ∀ f1 f2 n : Nat, n < f1 → n < f2 → natDigitsAux f1 n = natDigitsAux f2 n := by
  intro f1
  induction f1 with
  | zero => intro f2 n h1 h2; omega
  | succ f ih =>
    intro f2 n h1 h2
    cases f2 with
    | zero => omega
    | succ g =>
      simp only [natDigitsAux]
      by_cases hn : n < 10
      · simp [hn]
      · have hdiv : n / 10 < n := Nat.div_lt_self (by omega) (by omega)
        simp only [hn, if_false]
        rw [ih g (n / 10) (by omega) (by omega)]

theorem natDigits_ge10 {n : Nat} (h : 10 ≤ n) :
    natDigits n = natDigits (n / 10) ++ [digitChar (n % 10)] := by
  have hdiv : n / 10 < n := Nat.div_lt_self (by omega) (by omega)
  show natDigitsAux (n + 1) n = _
  simp only [natDigitsAux, Nat.not_lt.mpr h, if_false]
  rw [natDigitsAux_fuel n (n / 10 + 1) (n / 10) (by omega) (by omega)]
  rfl

theorem natDigits_lt10 {n : Nat} (h : n < 10) : natDigits n = [digitChar n] := by
  show natDigitsAux (n + 1) n = _
  cases n with
  | zero => rfl
  | succ m => simp [natDigitsAux, h]

theorem natDigits_ne_nil (n : Nat) : natDigits n ≠ [] := by
  by_cases h : n < 10
  · rw [natDigits_lt10 h]; simp
  · rw [natDigits_ge10 (by omega)]; simp

/-- Every character of `natDigits n` is a decimal digit character. -/
theorem natDigits_mem (n : Nat) : ∀ c ∈ natDigits n, ∃ k, k < 10 ∧ c = digitChar k := by
  induction n using Nat.strong_induction_on with
  | _ n ih =>
    by_cases h : n < 10
    · rw [natDigits_lt10 h]
      intro c hc
      simp at hc
      exact ⟨n, h, hc⟩
    · rw [natDigits_ge10 (by omega)]
      intro c hc
      rcases List.mem_append.mp hc with hc | hc
      · exact ih (n / 10) (Nat.div_lt_self (by omega) (by omega)) c hc
      · simp at hc
        exact ⟨n % 10, Nat.mod_lt _ (by omega), hc⟩

theorem natDigits_all_digit (n : Nat) : ∀ c ∈ natDigits n, isPyDigit c = true := by
  intro c hc
  obtain ⟨k, hk, rfl⟩ := natDigits_mem n c hc
  exact digitChar_digit hk

theorem natDigits_not_space (n : Nat) : ∀ c ∈ natDigits n, isPySpace c = false := by
  intro c hc
  obtain ⟨k, hk, rfl⟩ := natDigits_mem n c hc
  interval_cases k <;> decide

theorem natDigits_not_comma (n : Nat) : ∀ c ∈ natDigits n, isCommaClass c = false := by
  intro c hc
  obtain ⟨k, hk, rfl⟩ := natDigits_mem n c hc
  interval_cases k <;> decide

theorem natOfDigits_append_one (l : List Char) (c : Char) :
    natOfDigits (l ++ [c]) = natOfDigits l * 10 + digitVal c := by
  unfold natOfDigits
  rw [List.foldl_append]
  rfl

theorem natOfDigits_natDigits (n : Nat) : natOfDigits (natDigits n) = n := by
  induction n using Nat.strong_induction_on with
  | _ n ih =>
    by_cases h : n < 10
    · rw [natDigits_lt10 h]
      show 0 * 10 + digitVal (digitChar n) = n
      rw [digitVal_digitChar h]; omega
    · rw [natDigits_ge10 (by omega), natOfDigits_append_one,
        ih (n / 10) (Nat.div_lt_self (by omega) (by omega)),
        digitVal_digitChar (Nat.mod_lt _ (by omega))]
      omega

theorem natDigits_length_le : ∀ k : Nat, ∀ {n : Nat}, 1 ≤ k → n < 10 ^ k →
    (natDigits n).length ≤ k := by
  intro k
  induction k with
  | zero => intro n h; omega
  | succ j ih =>
    intro n _ hlt
    by_cases h : n < 10
    · rw [natDigits_lt10 h]; simp
    · have hj : 1 ≤ j := by
        by_contra hc
        have : j = 0 := by omega
        subst this
        simp [pow_succ] at hlt
        omega
      have hd : n / 10 < 10 ^ j := by
        have : n < 10 ^ j * 10 := by
          calc n < 10 ^ (j + 1) := hlt
          _ = 10 ^ j * 10 := by ring
        omega
      rw [natDigits_ge10 (by omega)]
      have := ih hj hd
      simp [List.length_append]
      omega

theorem natOfDigits_replicate_zero (k : Nat) (l : List Char) :
    natOfDigits (List.replicate k '0' ++ l) = natOfDigits l := by
  induction k with
  | zero => simp
  | succ j ih =>
    have : List.replicate (j + 1) '0' ++ l = '0' :: (List.replicate j '0' ++ l) := by
      simp [List.replicate_succ]
    rw [this]
    show (List.replicate j '0' ++ l).foldl (fun acc c => acc * 10 + digitVal c) (0 * 10 + digitVal '0') = _
    have hz : (0 * 10 + digitVal '0') = 0 := by decide
    rw [hz]
    exact ih

theorem pad4_natOfDigits (y : Nat) : natOfDigits (pad4 y) = y := by
  unfold pad4 padLeftZeros
  rw [natOfDigits_replicate_zero, natOfDigits_natDigits]

theorem pad2_natOfDigits (y : Nat) : natOfDigits (pad2 y) = y := by
  unfold pad2 padLeftZeros
  rw [natOfDigits_replicate_zero, natOfDigits_natDigits]

theorem pad4_all_digit (y : Nat) : ∀ c ∈ pad4 y, isPyDigit c = true := by
  intro c hc
  unfold pad4 padLeftZeros at hc
  rcases List.mem_append.mp hc with hc | hc
  · rw [List.eq_of_mem_replicate hc]; decide
  · exact natDigits_all_digit y c hc

theorem pad2_all_digit (y : Nat) : ∀ c ∈ pad2 y, isPyDigit c = true := by
  intro c hc
  unfold pad2 padLeftZeros at hc
  rcases List.mem_append.mp hc with hc | hc
  · rw [List.eq_of_mem_replicate hc]; decide
  · exact natDigits_all_digit y c hc

theorem pad4_length {y : Nat} (h : y ≤ 9999) : (pad4 y).length = 4 := by
  have hlen : (natDigits y).length ≤ 4 := natDigits_length_le 4 (by omega) (by omega)
  unfold pad4 padLeftZeros
  simp [List.length_append, List.length_replicate]
  omega

theorem pad2_length {y : Nat} (h : y ≤ 99) : (pad2 y).length = 2 := by
  have hlen : (natDigits y).length ≤ 2 := natDigits_length_le 2 (by omega) (by omega)
  unfold pad2 padLeftZeros
  simp [List.length_append, List.length_replicate]
  omega

theorem pad4_ne_nil (y : Nat) : pad4 y ≠ [] := by
  unfold pad4 padLeftZeros
  intro h
  rcases List.append_eq_nil.mp h with ⟨_, h2⟩
  exact natDigits_ne_nil y h2

/-! ## Helper lemmas: the ISO date matcher -/

theorem splitDigits_cons_not {c : Char} {r : List Char} (h : isPyDigit c = false) :
    splitDigits (c :: r) = ([], c :: r) := by
  simp [splitDigits, h]

theorem splitDigits_append {ds rest : List Char} (h : ∀ c ∈ ds, isPyDigit c = true) :
    splitDigits (ds ++ rest) = (ds ++ (splitDigits rest).1, (splitDigits rest).2) := by
  induction ds with
  | nil => simp [splitDigits]
  | cons c t ih =>
    have hc : isPyDigit c = true := h c (by simp)
    have ht : ∀ x ∈ t, isPyDigit x = true := fun x hx => h x (by simp [hx])
    simp only [List.cons_append, splitDigits, hc, if_true, List.append_eq, ih ht]

theorem splitDigits_all {ds : List Char} (h : ∀ c ∈ ds, isPyDigit c = true) :
    splitDigits ds = (ds, []) := by
  have := @splitDigits_append ds [] h
  simpa [splitDigits] using this

/-- Parsing a zero-padded `isoformat` string recovers the components. -/
theorem isoMatch_isoFormat {y m d : Nat} (hy : y ≤ 9999) (hm : m ≤ 99) (hd : d ≤ 99) :
    isoMatch (isoFormatL y m d) = some (y, m, d) := by
  simp only [isoMatch, isoFormatL, splitDigits_append (pad4_all_digit y),
    splitDigits_cons_not (show isPyDigit '-' = false by decide),
    splitDigits_append (pad2_all_digit m), splitDigits_all (pad2_all_digit d),
    List.append_nil, pad4_length hy, pad2_length hm, pad2_length hd,
    pad4_natOfDigits, pad2_natOfDigits]
  norm_num

theorem padLeftZeros_not_space {l : List Char} (n : Nat)
    (h : ∀ c ∈ l, isPySpace c = false) : ∀ c ∈ padLeftZeros l n, isPySpace c = false := by
  intro c hc
  rcases List.mem_append.mp hc with hc | hc
  · rw [List.eq_of_mem_replicate hc]; decide
  · exact h c hc

theorem isoFormatL_not_space (y m d : Nat) :
    ∀ c ∈ isoFormatL y m d, isPySpace c = false := by
  intro c hc
  unfold isoFormatL at hc
  rcases List.mem_append.mp hc with hc | hc
  · exact padLeftZeros_not_space 4 (natDigits_not_space y) c hc
  · rcases List.mem_cons.mp hc with rfl | hc
    · decide
    · rcases List.mem_append.mp hc with hc | hc
      · exact padLeftZeros_not_space 2 (natDigits_not_space m) c hc
      · rcases List.mem_cons.mp hc with rfl | hc
        · decide
        · exact padLeftZeros_not_space 2 (natDigits_not_space d) c hc

/-- An isoformat string never begins with the era marker. -/
theorem isoFormatL_not_wareki (y m d : Nat) :
    listStartsWith (isoFormatL y m d) ['令', '和'] = false := by
  unfold isoFormatL
  cases hp : pad4 y with
  | nil => exact absurd hp (pad4_ne_nil y)
  | cons c t =>
    have hc : isPyDigit c = true := pad4_all_digit y c (by rw [hp]; simp)
    have hne : (c = '令') = False := by
      simp only [eq_iff_iff, iff_false]
      intro h
      subst h
      simp [isPyDigit] at hc
    simp [listStartsWith, hne]

theorem isoFormat_ne_empty (y m d : Nat) : isoFormat y m d ≠ "" := by
  intro h
  have : isoFormatL y m d = [] := congrArg String.data h
  unfold isoFormatL at this
  rcases List.append_eq_nil.mp this with ⟨h1, _⟩
  exact pad4_ne_nil y h1

theorem pyStrip_isoFormat (y m d : Nat) : pyStrip (isoFormat y m d) = isoFormat y m d :=
  pyStrip_of_all (by rw [string_data_mk]; exact isoFormatL_not_space y m d)

/-! ## Helper lemmas: the era-calendar matcher -/

/-- The canonical era-calendar date string `令和R年M月D日` (the shape
`_iso_to_wareki` prints, and the claims quantify over). -/
def warekiCanonL (r m d : Nat) : List Char :=
  '令' :: '和' :: (natDigits r ++ '年' :: (natDigits m ++ '月' :: (natDigits d ++ ['日'])))

def warekiCanon (r m d : Nat) : String := String.mk (warekiCanonL r m d)

theorem dropWhile_spaces_append_digits {l rest : List Char} (hl : l ≠ [])
    (h : ∀ c ∈ l, isPySpace c = false) :
    (l ++ rest).dropWhile isPySpace = l ++ rest := by
  cases l with
  | nil => exact absurd rfl hl
  | cons c t => simp [List.dropWhile_cons, h c (by simp)]

theorem natDigits_ne_hyphen (n : Nat) : ∀ c ∈ natDigits n, c ≠ '-' := by
  intro c hc
  obtain ⟨k, hk, rfl⟩ := natDigits_mem n c hc
  interval_cases k <;> decide

theorem daysInMonth_le31 (y m : Nat) : daysInMonth y m ≤ 31 := by
  unfold daysInMonth
  split
  · split <;> omega
  · split <;> omega

theorem validDate_bounds {y m d : Nat} (h : validDate y m d = true) :
    1 ≤ y ∧ y ≤ 9999 ∧ 1 ≤ m ∧ m ≤ 12 ∧ 1 ≤ d ∧ d ≤ 31 := by
  have h31 := daysInMonth_le31 y m
  simp only [validDate, Bool.and_eq_true, decide_eq_true_eq] at h
  omega

theorem expectChar_cons_self (c : Char) (r : List Char) : expectChar c (c :: r) = some r := by
  simp [expectChar]

theorem isEmpty_natDigits (n : Nat) : (natDigits n).isEmpty = false := by
  cases hn : natDigits n with
  | nil => exact absurd hn (natDigits_ne_nil n)
  | cons a t => rfl

theorem dropWhile_nen (l : List Char) :
    ('年' :: l).dropWhile isPySpace = '年' :: l := by
  rw [List.dropWhile_cons, if_neg (by decide)]

theorem dropWhile_getsu (l : List Char) :
    ('月' :: l).dropWhile isPySpace = '月' :: l := by
  rw [List.dropWhile_cons, if_neg (by decide)]

theorem dropWhile_nichi (l : List Char) :
    ('日' :: l).dropWhile isPySpace = '日' :: l := by
  rw [List.dropWhile_cons, if_neg (by decide)]

theorem warekiAt_canon (r m d : Nat) : warekiAt (warekiCanonL r m d) = some (r, m, d) := by
  unfold warekiCanonL warekiAt
  simp only [expectChar_cons_self,
    dropWhile_spaces_append_digits (natDigits_ne_nil r) (natDigits_not_space r),
    dropWhile_spaces_append_digits (natDigits_ne_nil m) (natDigits_not_space m),
    dropWhile_spaces_append_digits (natDigits_ne_nil d) (natDigits_not_space d),
    splitDigits_append (natDigits_all_digit r),
    splitDigits_append (natDigits_all_digit m),
    splitDigits_append (natDigits_all_digit d),
    splitDigits_cons_not (show isPyDigit '年' = false by decide),
    splitDigits_cons_not (show isPyDigit '月' = false by decide),
    splitDigits_cons_not (show isPyDigit '日' = false by decide),
    List.append_nil, isEmpty_natDigits, dropWhile_nen, dropWhile_getsu, dropWhile_nichi,
    natOfDigits_natDigits, Bool.false_eq_true, if_false]

theorem warekiSearch_canon (r m d : Nat) :
    warekiSearch (warekiCanonL r m d) = some (r, m, d) := by
  have h := warekiAt_canon r m d
  show warekiSearch ('令' :: '和' ::
    (natDigits r ++ '年' :: (natDigits m ++ '月' :: (natDigits d ++ ['日'])))) = _
  unfold warekiSearch
  rw [show ('令' :: '和' ::
      (natDigits r ++ '年' :: (natDigits m ++ '月' :: (natDigits d ++ ['日'])))) =
      warekiCanonL r m d from rfl, h]

theorem wareki_to_iso_canon {r m d : Nat} (h : validDate (r + 2018) m d = true) :
    wareki_to_iso (warekiCanon r m d) = isoFormat (r + 2018) m d := by
  unfold wareki_to_iso warekiCanon
  rw [string_data_mk, warekiSearch_canon]
  simp [h]

theorem warekiCanonL_not_space (r m d : Nat) :
    ∀ c ∈ warekiCanonL r m d, isPySpace c = false := by
  intro c hc
  unfold warekiCanonL at hc
  rcases List.mem_cons.mp hc with rfl | hc
  · decide
  rcases List.mem_cons.mp hc with rfl | hc
  · decide
  rcases List.mem_append.mp hc with hc | hc
  · exact natDigits_not_space r c hc
  rcases List.mem_cons.mp hc with rfl | hc
  · decide
  rcases List.mem_append.mp hc with hc | hc
  · exact natDigits_not_space m c hc
  rcases List.mem_cons.mp hc with rfl | hc
  · decide
  rcases List.mem_append.mp hc with hc | hc
  · exact natDigits_not_space d c hc
  rcases List.mem_cons.mp hc with rfl | hc
  · decide
  · simp at hc

theorem pyStrip_warekiCanon (r m d : Nat) :
    pyStrip (warekiCanon r m d) = warekiCanon r m d := by
  apply pyStrip_of_all
  show ∀ c ∈ warekiCanonL r m d, isPySpace c = false
  exact warekiCanonL_not_space r m d

theorem warekiCanon_startsWith (r m d : Nat) :
    listStartsWith (warekiCanon r m d).data ['令', '和'] = true := by
  show listStartsWith (warekiCanonL r m d) ['令', '和'] = true
  unfold warekiCanonL
  simp [listStartsWith]

theorem warekiCanon_ne_empty (r m d : Nat) : warekiCanon r m d ≠ "" := by
  intro h
  have : warekiCanonL r m d = [] := congrArg String.data h
  simp [warekiCanonL] at this

set_option maxRecDepth 4000 in
/-- Rendering a valid post-2018 ISO date back to the era calendar. -/
theorem iso_to_wareki_isoFormat {y m d : Nat} (h : validDate y m d = true)
    (hy : 2019 ≤ y) : iso_to_wareki (isoFormat y m d) = warekiCanon (y - 2018) m d := by
  obtain ⟨_, hy9, _, hm12, _, hd31⟩ := validDate_bounds h
  have hiso : isoMatch (isoFormat y m d).data = some (y, m, d) := by
    rw [show (isoFormat y m d).data = isoFormatL y m d from rfl]
    exact isoMatch_isoFormat hy9 (by omega) (by omega)
  unfold iso_to_wareki
  rw [hiso]
  show (if validDate y m d = true then
      if y < 2019 then
        String.mk (natDigits y ++ ('年' :: (natDigits m ++ ('月' :: (natDigits d ++ ['日'])))))
      else
        String.mk ('令' :: '和' ::
          (natDigits (y - 2018) ++ ('年' :: (natDigits m ++ ('月' :: (natDigits d ++ ['日']))))))
    else isoFormat y m d) = warekiCanon (y - 2018) m d
  rw [if_pos h, if_neg (show ¬ y < 2019 by omega)]
  rfl

/-! ## Helper lemmas: integer canonicalization -/

theorem isPySpace_of_not_comma {c : Char} (h : isCommaClass c = false) :
    isPySpace c = false := by
  cases hs : isPySpace c with
  | false => rfl
  | true => rw [isCommaClass, hs] at h; simp at h

theorem intChars_ne_nil (i : Int) : intChars i ≠ [] := by
  unfold intChars
  split
  · simp
  · exact natDigits_ne_nil _

theorem intChars_not_comma (i : Int) : ∀ c ∈ intChars i, isCommaClass c = false := by
  intro c hc
  unfold intChars at hc
  split at hc
  · rcases List.mem_cons.mp hc with rfl | hc
    · decide
    · exact natDigits_not_comma _ c hc
  · exact natDigits_not_comma _ c hc

theorem isSignedDigitsL_intChars (i : Int) : isSignedDigitsL (intChars i) = true := by
  unfold intChars
  split
  · next hneg =>
    show isSignedDigitsL ('-' :: natDigits i.natAbs) = true
    simp [isSignedDigitsL, isEmpty_natDigits, List.all_eq_true]
    exact natDigits_all_digit i.natAbs
  · cases hn : natDigits i.toNat with
    | nil => exact absurd hn (natDigits_ne_nil _)
    | cons c t =>
      have hne : c ≠ '-' := natDigits_ne_hyphen i.toNat c (by rw [hn]; simp)
      simp only [isSignedDigitsL, if_neg hne]
      rw [← hn]
      exact List.all_eq_true.mpr (natDigits_all_digit i.toNat)

theorem intOfSigned_intChars (i : Int) : intOfSigned (intChars i) = i := by
  unfold intChars
  split
  · next hneg =>
    have hval : natOfDigits (natDigits i.natAbs) = i.natAbs := natOfDigits_natDigits _
    show (if ('-' : Char) = '-' then -(natOfDigits (natDigits i.natAbs) : Int)
      else (natOfDigits ('-' :: natDigits i.natAbs) : Int)) = i
    rw [if_pos rfl, hval]
    omega
  · next hpos =>
    cases hn : natDigits i.toNat with
    | nil => exact absurd hn (natDigits_ne_nil _)
    | cons c t =>
      have hne : c ≠ '-' := natDigits_ne_hyphen i.toNat c (by rw [hn]; simp)
      simp only [intOfSigned, if_neg hne]
      rw [← hn, natOfDigits_natDigits]
      omega

/-- `_to_int_like` is the identity on the canonical integer strings it
produces. -/
theorem to_int_like_intChars (i : Int) :
    to_int_like (String.mk (intChars i)) = String.mk (intChars i) := by
  unfold to_int_like
  rw [string_data_mk]
  have hfil : (intChars i).filter (fun c => !isCommaClass c) = intChars i :=
    List.filter_eq_self.mpr (by
      intro c hc
      rw [intChars_not_comma i c hc]
      rfl)
  rw [hfil]
  rw [if_neg (by simpa [List.isEmpty_eq_true] using intChars_ne_nil i)]
  rw [if_neg (by rw [isSignedDigitsL_intChars]; simp)]
  unfold intCanonL
  rw [intOfSigned_intChars]

theorem intChars_not_space (i : Int) : ∀ c ∈ intChars i, isPySpace c = false :=
  fun c hc => isPySpace_of_not_comma (intChars_not_comma i c hc)

theorem pyStrip_intChars (i : Int) :
    pyStrip (String.mk (intChars i)) = String.mk (intChars i) :=
  pyStrip_of_all (by rw [string_data_mk]; exact intChars_not_space i)

theorem intChars_string_ne_empty (i : Int) : String.mk (intChars i) ≠ "" := by
  intro h
  exact intChars_ne_nil i (congrArg String.data h)

/-- `_to_int_like` returns the empty string, its input, or a canonical
integer string. -/
theorem to_int_like_shape (s : String) :
    to_int_like s = "" ∨ to_int_like s = s ∨ ∃ i : Int, to_int_like s = String.mk (intChars i) := by
  simp only [to_int_like]
  split_ifs with h1 h2
  · exact Or.inl rfl
  · exact Or.inr (Or.inl rfl)
  · exact Or.inr (Or.inr ⟨intOfSigned (s.data.filter (fun c => !isCommaClass c)), rfl⟩)

/-! ## Normalization fixpoint lemmas -/

/-- Normalizing a zero-padded valid ISO date under a date format is the
identity. -/
theorem normalize_isoFormat_fix {yy mm dd : Nat} {fmt : String}
    (hv : validDate yy mm dd = true)
    (hdate : (strHas (lowerStr fmt) "yyyy" || strHas fmt "日付" || strHas fmt "和暦") = true) :
    normalize_value (isoFormat yy mm dd) fmt = some (isoFormat yy mm dd) := by
  obtain ⟨hy1, hy9, hm1, hm12, hd1, hd31⟩ := validDate_bounds hv
  simp only [normalize_value]
  rw [pyStrip_isoFormat, if_neg (isoFormat_ne_empty yy mm dd), if_pos hdate]
  rw [show (isoFormat yy mm dd).data = isoFormatL yy mm dd from rfl]
  rw [isoFormatL_not_wareki]
  simp only [Bool.false_eq_true, if_false]
  rw [isoMatch_isoFormat hy9 (by omega) (by omega)]
  show (if validDate yy mm dd = true then some (isoFormat yy mm dd) else none) = _
  rw [if_pos hv]

/-- Normalizing a canonical era-calendar date under a date format produces
the corresponding ISO date. -/
theorem normalize_warekiCanon {r m d : Nat} {fmt : String}
    (hv : validDate (r + 2018) m d = true)
    (hdate : (strHas (lowerStr fmt) "yyyy" || strHas fmt "日付" || strHas fmt "和暦") = true) :
    normalize_value (warekiCanon r m d) fmt = some (isoFormat (r + 2018) m d) := by
  simp only [normalize_value]
  rw [pyStrip_warekiCanon, if_neg (warekiCanon_ne_empty r m d), if_pos hdate,
    if_pos (warekiCanon_startsWith r m d), wareki_to_iso_canon hv]

/-- Applying `normalize_value` to one of its own (non-exceptional) outputs
returns that output unchanged. -/
theorem normalize_value_fix {x fmt y : String} (h : normalize_value x fmt = some y) :
    normalize_value y fmt = some y := by
  simp only [normalize_value] at h ⊢
  by_cases hx : pyStrip x = ""
  · rw [if_pos hx] at h
    obtain rfl : "" = y := Option.some.inj h
    rw [if_pos (show pyStrip "" = "" by decide)]
  rw [if_neg hx] at h
  have hstrip : pyStrip (pyStrip x) = pyStrip x := pyStrip_idem x
  by_cases hdate : (strHas (lowerStr fmt) "yyyy" || strHas fmt "日付" || strHas fmt "和暦") = true
  · rw [if_pos hdate] at h
    by_cases hpre : listStartsWith (pyStrip x).data ['令', '和'] = true
    · rw [if_pos hpre] at h
      obtain rfl := Option.some.inj h
      cases hsearch : warekiSearch (pyStrip x).data with
      | none =>
        have hfix : wareki_to_iso (pyStrip x) = pyStrip x := by
          unfold wareki_to_iso
          rw [hsearch]
        rw [hfix, hstrip, if_neg hx, if_pos hdate, if_pos hpre, hfix]
      | some v =>
        obtain ⟨ry, md, dd⟩ := v
        have hunf : wareki_to_iso (pyStrip x) =
            (if validDate (ry + 2018) md dd then isoFormat (ry + 2018) md dd
             else pyStrip x) := by
          unfold wareki_to_iso
          rw [hsearch]
        by_cases hvd : validDate (ry + 2018) md dd = true
        · rw [hunf, if_pos hvd]
          have := normalize_isoFormat_fix hvd hdate
          simpa [normalize_value] using this
        · have hfix : wareki_to_iso (pyStrip x) = pyStrip x := by
            rw [hunf, if_neg hvd]
          rw [hfix, hstrip, if_neg hx, if_pos hdate, if_pos hpre, hfix]
    · rw [if_neg hpre] at h
      cases hmatch : isoMatch (pyStrip x).data with
      | none =>
        rw [hmatch] at h
        obtain rfl := Option.some.inj h
        rw [hstrip, if_neg hx, if_pos hdate, if_neg hpre, hmatch]
      | some v =>
        obtain ⟨yy, mm, dd⟩ := v
        rw [hmatch] at h
        replace h : (if validDate yy mm dd = true then some (isoFormat yy mm dd)
            else none) = some y := h
        by_cases hvd : validDate yy mm dd = true
        · rw [if_pos hvd] at h
          obtain rfl := Option.some.inj h
          have := normalize_isoFormat_fix hvd hdate
          simpa [normalize_value] using this
        · rw [if_neg hvd] at h
          exact absurd h (by simp)
  rw [if_neg hdate] at h ⊢
  by_cases hcur : (strHas fmt "金額" || strHas (lowerStr fmt) "currency") = true
  · rw [if_pos hcur] at h ⊢
    obtain rfl := Option.some.inj h
    rcases to_int_like_shape (pyStrip x) with hs | hs | ⟨i, hs⟩
    · rw [hs, if_pos (show pyStrip "" = "" by decide)]
    · rw [hs, hstrip, if_neg hx, hs]
    · rw [hs, pyStrip_intChars, if_neg (intChars_string_ne_empty i), to_int_like_intChars]
  rw [if_neg hcur] at h ⊢
  by_cases hnum : (strHas fmt "数字" || strHas (lowerStr fmt) "number") = true
  · rw [if_pos hnum] at h ⊢
    obtain rfl := Option.some.inj h
    rcases to_int_like_shape (pyStrip x) with hs | hs | ⟨i, hs⟩
    · rw [hs, if_pos (show pyStrip "" = "" by decide)]
    · rw [hs, hstrip, if_neg hx, hs]
    · rw [hs, pyStrip_intChars, if_neg (intChars_string_ne_empty i), to_int_like_intChars]
  rw [if_neg hnum] at h ⊢
  by_cases hcb : strHas (lowerStr fmt) "checkbox" = true
  · rw [if_pos hcb] at h ⊢
    obtain rfl := Option.some.inj h
    by_cases ht : truthyTokens.contains (lowerStr (pyStrip x)) = true
    · rw [if_pos ht, if_neg (by decide : ¬ (pyStrip "true" = ""))]
      rw [if_pos (by decide : truthyTokens.contains (lowerStr (pyStrip "true")) = true)]
    · rw [if_neg ht, if_neg (by decide : ¬ (pyStrip "false" = ""))]
      rw [if_neg (by decide : ¬ truthyTokens.contains (lowerStr (pyStrip "false")) = true)]
  rw [if_neg hcb] at h ⊢
  obtain rfl := Option.some.inj h
  rw [hstrip, if_neg hx]

/-! ## Claims C1, C4, C5 (normalizer) -/

/-- C1 (code bug): the spec states that normalization never raises and that
an ISO-shaped input that is not a real calendar date (e.g. day 31 in a
30-day month) passes through unchanged.  Evaluating the embedding at raw
`"2024-04-31"` under a date-tagged format shows the uncaught
`datetime.strptime` `ValueError` (modelled `none`): the code raises instead
of passing the value through, while the analogous invalid era-calendar
input `令和6年4月31日` does pass through unchanged, as the intended policy
(and the `try/except ValueError` in `_wareki_to_iso`) prescribes. -/
theorem claim_C1 :
    normalize_value "2024-04-31" "日付" = none ∧
    normalize_value "令和6年4月31日" "日付" = some "令和6年4月31日" :=
  ⟨by decide, by decide⟩

/-- C4: `normalize_value` is idempotent for every format class: composing
it with itself through `Option.bind` equals a single application — whenever
the first application returns a value, normalizing that value again
returns it unchanged (and an exceptional application stays exceptional). -/
theorem claim_C4 (x fmt : String) :
    (normalize_value x fmt).bind (fun y => normalize_value y fmt) =
      normalize_value x fmt := by
  cases h : normalize_value x fmt with
  | none => rfl
  | some y => exact normalize_value_fix h

/-- C5: for every date valid in either supported calendar and every
date-tagged format, denormalization round-trips the normalized value: the
canonical era string `令和R年M月D日` normalizes to the padded ISO date,
which `date_wareki`-denormalizes back to the same era string; the ISO form
itself renormalizes unchanged (the two representations are equivalent
renderings of one calendar date).  Concretely, `令和6年4月1日` normalizes
to `2024-04-01` and denormalizes back to `令和6年4月1日`. -/
theorem claim_C5 (r m d : Nat) (fmt : String) (hr : 1 ≤ r)
    (hv : validDate (r + 2018) m d = true)
    (hdate : (strHas (lowerStr fmt) "yyyy" || strHas fmt "日付" || strHas fmt "和暦") = true) :
    normalize_value (warekiCanon r m d) fmt = some (isoFormat (r + 2018) m d) ∧
    to_excel_value (isoFormat (r + 2018) m d) "date_wareki" =
      ExcelValue.str (warekiCanon r m d) ∧
    normalize_value (isoFormat (r + 2018) m d) fmt = some (isoFormat (r + 2018) m d) := by
  refine ⟨normalize_warekiCanon hv hdate, ?_, normalize_isoFormat_fix hv hdate⟩
  have hto : ∀ s : String, s ≠ "" →
      to_excel_value s "date_wareki" = ExcelValue.str (iso_to_wareki s) := by
    intro s hs
    unfold to_excel_value
    rw [if_neg hs, if_neg (by decide), if_neg (by decide), if_neg (by decide),
      if_pos (by decide)]
  rw [hto _ (isoFormat_ne_empty _ _ _)]
  have hiw := iso_to_wareki_isoFormat hv (show 2019 ≤ r + 2018 by omega)
  rw [show r + 2018 - 2018 = r from by omega] at hiw
  rw [hiw]

/-- C5 witness at the spec's Scenario A. -/
theorem claim_C5_witness :
    normalize_value "令和6年4月1日" "日付" = some "2024-04-01" ∧
    to_excel_value "2024-04-01" "date_wareki" = ExcelValue.str "令和6年4月1日" ∧
    normalize_value "2024-04-01" "日付" = some "2024-04-01" :=
  claim_C5 6 4 1 "日付" (by decide) (by decide) (by decide)

/-! ## Claim C3 (classifier agreement, corrected) -/

/-- C3 counterexample: the two classifiers do not share their marker-token
sets.  For the format string `"currency"`, `normalize_value` classifies the
field as currency (normalizing `"1,200"` to `"1200"`), but the mapping
engine's `infer_value_type` returns `"text"` (it only knows the token
`金額`), so pass 2 denormalizes under the free-text class the value was
not normalized under. -/
theorem claim_C3_counterexample :
    infer_value_type "currency" = "text" ∧
    normalize_value "1,200" "currency" = some "1200" ∧
    normalize_value "1,200" "currency" ≠
      normalize_by_class (infer_value_type "currency") "1,200" := by
  refine ⟨by decide, by decide, ?_⟩
  decide

/-- C3 (amended): the agreement holds exactly on format strings that avoid
the tokens known to only one of the two classifiers — the English
`currency` and `number` markers (known only to normalization) and the
`チェック` checkbox marker (known only to the mapping engine): for such
formats, normalizing is the same as applying the normalization class named
by `infer_value_type` (with `date_wareki`/`date_iso` both the date class,
`currency`/`number` both the integer class, and `text_multiline`/`text`
both passthrough). -/
theorem claim_C3 (fmt raw : String)
    (hc1 : strHas (lowerStr fmt) "currency" = false)
    (hc2 : strHas (lowerStr fmt) "number" = false)
    (hc3 : strHas fmt "チェック" = false) :
    normalize_value raw fmt = normalize_by_class (infer_value_type fmt) raw := by
  by_cases hw : strHas fmt "和暦" = true
  · have hinf : infer_value_type fmt = "date_wareki" := by
      simp [infer_value_type, hw]
    have hdate : (strHas (lowerStr fmt) "yyyy" || strHas fmt "日付" ||
        strHas fmt "和暦") = true := by simp [hw]
    rw [hinf]
    simp [normalize_value, normalize_by_class, hdate]
  by_cases hdi : (strHas (lowerStr fmt) "yyyy" || strHas fmt "日付") = true
  · have hinf : infer_value_type fmt = "date_iso" := by
      simp [infer_value_type, hw, hdi]
    have hdate : (strHas (lowerStr fmt) "yyyy" || strHas fmt "日付" ||
        strHas fmt "和暦") = true := by
      rcases Bool.or_eq_true_iff.mp hdi with h | h <;> simp [h]
    rw [hinf]
    simp [normalize_value, normalize_by_class, hdate]
  have hdate : (strHas (lowerStr fmt) "yyyy" || strHas fmt "日付" ||
      strHas fmt "和暦") = false := by
    rcases Bool.or_eq_false_iff.mp (Bool.eq_false_iff.mpr
      (fun h => hdi h) : (strHas (lowerStr fmt) "yyyy" || strHas fmt "日付") = false)
      with ⟨h1, h2⟩
    simp [h1, h2, Bool.eq_false_iff.mpr (fun h => hw h)]
  by_cases hkin : strHas fmt "金額" = true
  · have hinf : infer_value_type fmt = "currency" := by
      simp [infer_value_type, hw, hdi, hkin]
    have hcur : (strHas fmt "金額" || strHas (lowerStr fmt) "currency") = true := by
      simp [hkin]
    rw [hinf]
    simp [normalize_value, normalize_by_class, hdate, hcur]
  by_cases hsuji : strHas fmt "数字" = true
  · have hinf : infer_value_type fmt = "number" := by
      simp [infer_value_type, hw, hdi, hkin, hsuji]
    have hcur : (strHas fmt "金額" || strHas (lowerStr fmt) "currency") = false := by
      simp [hkin, hc1]
    have hnum : (strHas fmt "数字" || strHas (lowerStr fmt) "number") = true := by
      simp [hsuji]
    rw [hinf]
    simp [normalize_value, normalize_by_class, hdate, hcur, hnum]
  have hcur : (strHas fmt "金額" || strHas (lowerStr fmt) "currency") = false := by
    simp [hkin, hc1]
  have hnum : (strHas fmt "数字" || strHas (lowerStr fmt) "number") = false := by
    simp [hsuji, hc2]
  by_cases hcbx : strHas (lowerStr fmt) "checkbox" = true
  · have hinf : infer_value_type fmt = "checkbox" := by
      simp [infer_value_type, hw, hdi, hkin, hsuji, hcbx]
    rw [hinf]
    simp [normalize_value, normalize_by_class, hdate, hcur, hnum, hcbx]
  by_cases hml : (strHas fmt "改行" || strHas fmt "複数行") = true
  · have hinf : infer_value_type fmt = "text_multiline" := by
      simp [infer_value_type, hw, hdi, hkin, hsuji, hcbx, hc3, hml]
    rw [hinf]
    simp [normalize_value, normalize_by_class, hdate, hcur, hnum, hcbx]
  · have hinf : infer_value_type fmt = "text" := by
      simp [infer_value_type, hw, hdi, hkin, hsuji, hcbx, hc3, hml]
    rw [hinf]
    simp [normalize_value, normalize_by_class, hdate, hcur, hnum, hcbx]

/-- C3 amended witness: a Japanese-token format where both classifiers
agree on the date class. -/
theorem claim_C3_witness :
    normalize_value "2024/4/1" "日付" = normalize_by_class (infer_value_type "日付") "2024/4/1" :=
  claim_C3 "日付" "2024/4/1" (by decide) (by decide) (by decide)

/-! ## Validator lemmas and claims C6, C7 -/

/-- Every per-field issue carries that field's (stripped) id. -/
theorem required_block_field_id (fid raw req : String) :
    ∀ j ∈ required_block fid raw req, j.field_id = fid := by
  intro j hj
  unfold required_block at hj
  split_ifs at hj <;> simp_all

theorem numeric_check_field_id (fid fmt norm : String) :
    ∀ j ∈ numeric_check fid fmt norm, j.field_id = fid := by
  intro j hj
  unfold numeric_check at hj
  split_ifs at hj <;> simp_all

theorem phone_check_field_id (fid fmt norm : String) :
    ∀ j ∈ phone_check fid fmt norm, j.field_id = fid := by
  intro j hj
  unfold phone_check at hj
  split_ifs at hj <;> simp_all

theorem postal_check_field_id (fid fmt norm : String) :
    ∀ j ∈ postal_check fid fmt norm, j.field_id = fid := by
  intro j hj
  unfold postal_check at hj
  split_ifs at hj <;> simp_all

theorem date_check_field_id (fid fmt norm : String) :
    ∀ j ∈ date_check fid fmt norm, j.field_id = fid := by
  intro j hj
  unfold date_check at hj
  split_ifs at hj <;> simp_all

theorem field_issues_field_id (answers : List (String × NormAnswer)) (f : SchemaField) :
    ∀ i ∈ field_issues answers f, i.field_id = pyStrip f.field_id := by
  intro i hi
  simp only [field_issues] at hi
  by_cases hf : pyStrip f.field_id = ""
  · simp [hf] at hi
  rw [if_neg hf] at hi
  split at hi
  · exact required_block_field_id _ _ _ i hi
  · rcases List.mem_append.mp hi with hi | hi
    · rcases List.mem_append.mp hi with hi | hi
      · rcases List.mem_append.mp hi with hi | hi
        · rcases List.mem_append.mp hi with hi | hi
          · exact required_block_field_id _ _ _ i hi
          · exact numeric_check_field_id _ _ _ i hi
        · exact phone_check_field_id _ _ _ i hi
      · exact postal_check_field_id _ _ _ i hi
    · exact date_check_field_id _ _ _ i hi

/-- Every cross-check issue carries the synthetic pseudo id. -/
theorem cross_issues_field_id (answers : List (String × NormAnswer)) :
    ∀ i ∈ cross_issues answers, i.field_id = "_cross_check" := by
  intro i hi
  unfold cross_issues at hi
  rcases hpair : answers.foldl cross_fold (none, none) with ⟨vc, dc⟩
  rw [hpair] at hi
  cases vc <;> cases dc <;> simp_all [cross_check_issue]

theorem filter_flatMap_ne (answers : List (String × NormAnswer))
    (l : List SchemaField) (fid : String)
    (h : ∀ g ∈ l, pyStrip g.field_id ≠ fid) :
    (l.flatMap (field_issues answers)).filter (fun i => i.field_id == fid) = [] := by
  rw [List.filter_eq_nil_iff]
  intro i hi
  rcases List.mem_flatMap.mp hi with ⟨g, hg, hig⟩
  rw [show i.field_id = pyStrip g.field_id from field_issues_field_id answers g i hig]
  simp [h g hg]

theorem filter_cross_ne (answers : List (String × NormAnswer)) (fid : String)
    (h : fid ≠ "_cross_check") :
    (cross_issues answers).filter (fun i => i.field_id == fid) = [] := by
  rw [List.filter_eq_nil_iff]
  intro i hi
  rw [cross_issues_field_id answers i hi]
  simp only [beq_iff_eq]
  exact fun hh => h hh.symm

/-- C6: for every catalog and every answer set produced by normalization
(so an empty raw value has an empty normalized value), a required field
with unique, non-synthetic id and an empty raw answer receives exactly one
issue, the error `必須項目が未入力です。`, and no other issue of the run
carries its field id. -/
theorem claim_C6 (fields : List SchemaField) (answers : List (String × NormAnswer))
    (pre post : List SchemaField) (f : SchemaField)
    (hsplit : fields = pre ++ f :: post)
    (hfid : pyStrip f.field_id ≠ "")
    (hreq : required_flag f.required = true)
    (huniq : ∀ g ∈ pre ++ post, pyStrip g.field_id ≠ pyStrip f.field_id)
    (hcross : pyStrip f.field_id ≠ "_cross_check")
    (hraw : pyStrip (lookupAnswer answers (pyStrip f.field_id)).raw = "")
    (hnorm : pyStrip (lookupAnswer answers (pyStrip f.field_id)).norm = "") :
    (validate_answers fields answers).filter
        (fun i => i.field_id == pyStrip f.field_id) =
      [⟨pyStrip f.field_id, "error", "必須項目が未入力です。"⟩] := by
  subst hsplit
  unfold validate_answers
  rw [List.flatMap_append, List.flatMap_cons, List.filter_append, List.filter_append,
    List.filter_append]
  rw [filter_flatMap_ne answers pre _ (fun g hg => huniq g (by simp [hg])),
    filter_flatMap_ne answers post _ (fun g hg => huniq g (by simp [hg])),
    filter_cross_ne answers _ hcross]
  have hmid : field_issues answers f =
      [⟨pyStrip f.field_id, "error", "必須項目が未入力です。"⟩] := by
    simp only [field_issues, required_block]
    rw [if_neg hfid, hnorm, if_pos rfl, hraw, if_pos hreq, if_pos rfl]
  rw [hmid]
  simp

/-- C6 witness: a required free-text field that was never answered. -/
theorem claim_C6_witness :
    (validate_answers [⟨"f1", "", "", "テキスト", "必須"⟩] []).filter
        (fun i => i.field_id == pyStrip "f1") =
      [⟨pyStrip "f1", "error", "必須項目が未入力です。"⟩] :=
  claim_C6 [⟨"f1", "", "", "テキスト", "必須"⟩] [] [] [] ⟨"f1", "", "", "テキスト", "必須"⟩
    rfl (by decide) (by decide) (by intro g hg; simp at hg) (by decide)
    (by decide) (by decide)

/-- C7 counterexample: a required field whose format tag is numeric and
whose raw value is the placeholder `不明` receives TWO warning issues (the
placeholder warning and the numeric-shape warning), not one: the format
checks still run on the non-empty placeholder text. -/
theorem claim_C7_counterexample :
    ((validate_answers [⟨"f1", "", "", "数字", "true"⟩] [("f1", ⟨"不明", "不明"⟩)]).filter
        (fun i => i.field_id == "f1" && i.severity == "warning")).length = 2 := by
  decide

/-- C7 (amended): a required field (unique, non-synthetic id) whose raw
value is exactly a placeholder token receives the placeholder warning and
zero error issues; it is the only issue for that field id provided the
format tag triggers no shape check (numeric, phone, postal, date) — a
shape-checked format can add further warnings, as the counterexample
shows. -/
theorem claim_C7 (fields : List SchemaField) (answers : List (String × NormAnswer))
    (pre post : List SchemaField) (f : SchemaField)
    (hsplit : fields = pre ++ f :: post)
    (hfid : pyStrip f.field_id ≠ "")
    (hreq : required_flag f.required = true)
    (huniq : ∀ g ∈ pre ++ post, pyStrip g.field_id ≠ pyStrip f.field_id)
    (hcross : pyStrip f.field_id ≠ "_cross_check")
    (hraw : (UNKNOWN_MARKERS.contains (lowerStr (pyStrip (lookupAnswer answers
        (pyStrip f.field_id)).raw)) ||
      UNKNOWN_MARKERS.contains (pyStrip (lookupAnswer answers (pyStrip f.field_id)).raw)) = true)
    (hrawne : pyStrip (lookupAnswer answers (pyStrip f.field_id)).raw ≠ "")
    (ht1 : (strHas f.format "数字" || strHas (lowerStr f.format) "number") = false)
    (ht2 : (strHas f.format "電話" || strHas (lowerStr f.format) "0xx") = false)
    (ht3 : (strHas f.format "郵便" || strHas f.format "〒" ||
      strHas f.format "郵便番号") = false)
    (ht4 : (strHas (lowerStr f.format) "yyyy" || strHas f.format "日付" ||
      strHas f.format "和暦") = false) :
    (validate_answers fields answers).filter
        (fun i => i.field_id == pyStrip f.field_id) =
      [⟨pyStrip f.field_id, "warning", "必須項目ですが『要確認/不明』として保存されています。"⟩] := by
  subst hsplit
  unfold validate_answers
  rw [List.flatMap_append, List.flatMap_cons, List.filter_append, List.filter_append,
    List.filter_append]
  rw [filter_flatMap_ne answers pre _ (fun g hg => huniq g (by simp [hg])),
    filter_flatMap_ne answers post _ (fun g hg => huniq g (by simp [hg])),
    filter_cross_ne answers _ hcross]
  have hblock : required_block (pyStrip f.field_id)
      (pyStrip (lookupAnswer answers (pyStrip f.field_id)).raw) f.required =
      [⟨pyStrip f.field_id, "warning", "必須項目ですが『要確認/不明』として保存されています。"⟩] := by
    unfold required_block
    rw [if_pos hreq, if_neg hrawne, if_pos hraw]
  have hmid : field_issues answers f =
      [⟨pyStrip f.field_id, "warning", "必須項目ですが『要確認/不明』として保存されています。"⟩] := by
    simp only [field_issues]
    rw [if_neg hfid]
    by_cases hn : pyStrip (lookupAnswer answers (pyStrip f.field_id)).norm = ""
    · rw [if_pos hn, hblock]
    · rw [if_neg hn, hblock]
      simp only [numeric_check, phone_check, postal_check, date_check, ht1, ht2, ht3, ht4]
      simp
  rw [hmid]
  simp

/-- C7 amended witness: a required free-text field answered `不明`. -/
theorem claim_C7_witness :
    (validate_answers [⟨"f1", "", "", "自由記述", "true"⟩] [("f1", ⟨"不明", "不明"⟩)]).filter
        (fun i => i.field_id == pyStrip "f1") =
      [⟨pyStrip "f1", "warning", "必須項目ですが『要確認/不明』として保存されています。"⟩] :=
  claim_C7 [⟨"f1", "", "", "自由記述", "true"⟩] [("f1", ⟨"不明", "不明"⟩)] [] []
    ⟨"f1", "", "", "自由記述", "true"⟩ rfl (by decide) (by decide)
    (by intro g hg; simp at hg) (by decide) (by decide) (by decide)
    (by decide) (by decide) (by decide) (by decide)

/-! ## Claim C8 (range filling) -/

theorem fillSeq_length (chars : List Char) :
    ∀ (ps : List (Nat × Nat)) (idx : Nat), (fillSeq chars ps idx).length = ps.length := by
  intro ps
  induction ps with
  | nil => intro idx; rfl
  | cons p t ih => intro idx; simp [fillSeq, ih]

theorem fillSeq_get? (chars : List Char) :
    ∀ (ps : List (Nat × Nat)) (idx n : Nat),
      (fillSeq chars ps idx).get? n =
        (ps.get? n).map (fun p => (p.1, p.2, padCell chars (idx + n))) := by
  intro ps
  induction ps with
  | nil => intro idx n; simp [fillSeq]
  | cons p t ih =>
    intro idx n
    cases n with
    | zero => simp [fillSeq]
    | succ k =>
      simp only [fillSeq, List.get?_cons_succ]
      rw [ih (idx + 1) k]
      rw [show idx + 1 + k = idx + (k + 1) from by omega]

theorem fillSeq_range (chars : List Char) :
    ∀ (n : Nat) (g : Nat → Nat × Nat) (idx : Nat),
      fillSeq chars ((List.range n).map g) idx =
        (List.range n).map (fun i => ((g i).1, (g i).2, padCell chars (idx + i))) := by
  intro n
  induction n with
  | zero => intro g idx; rfl
  | succ k ih =>
    intro g idx
    rw [List.range_succ_eq_map]
    simp only [List.map_cons, List.map_map, fillSeq]
    rw [ih (g ∘ Nat.succ) (idx + 1)]
    have htail : List.map (fun i => (((g ∘ Nat.succ) i).1, ((g ∘ Nat.succ) i).2,
        padCell chars (idx + 1 + i))) (List.range k) =
        List.map ((fun i => ((g i).1, (g i).2, padCell chars (idx + i))) ∘ Nat.succ)
          (List.range k) := by
      apply List.map_congr_left
      intro i _
      simp only [Function.comp]
      rw [show idx + 1 + i = idx + (i + 1) from by omega]
    rw [htail]
    rfl

theorem get?_flatMap_uniform {α β : Type} (f : α → List β) (k : Nat) :
    ∀ (l : List α) (j c : Nat), (∀ a ∈ l, (f a).length = k) → c < k →
      (l.flatMap f).get? (j * k + c) = (l.get? j).bind (fun a => (f a).get? c) := by
  intro l
  induction l with
  | nil => intro j c _ _; simp
  | cons a t ih =>
    intro j c hl hc
    have ha : (f a).length = k := hl a (by simp)
    cases j with
    | zero =>
      simp only [List.flatMap_cons, Nat.zero_mul, Nat.zero_add, List.get?_cons_zero,
        Option.bind]
      rw [List.get?_append (by omega)]
    | succ j' =>
      simp only [List.flatMap_cons, List.get?_cons_succ]
      rw [List.get?_append_right (by
        have : j' * k + k ≤ (j' + 1) * k + c := by ring_nf; omega
        omega)]
      rw [show (j' + 1) * k + c - (f a).length = j' * k + c from by
        rw [ha]; ring_nf; omega]
      exact ih j' c (fun b hb => hl b (by simp [hb])) hc

/-- C8: the range-fill policy.  On resolved boundaries
`(minCol, minRow, maxCol, maxRow)`: a single-cell range receives the value
directly; a single-row range receives the value's characters one per cell
left-to-right, padding cells beyond the string with `""`; a single-column
range likewise top-to-bottom; a two-dimensional range is filled row-major
with the same padding.  Concretely, the 1×4 range written with `"ABC"`
gets `"A"`, `"B"`, `"C"`, `""`. -/
theorem claim_C8 (minCol minRow maxCol maxRow : Nat) (v : ExcelValue) :
    (minCol = maxCol → minRow = maxRow →
      fill_linear minCol minRow maxCol maxRow v = [(minRow, minCol, v)]) ∧
    (minRow = maxRow → ¬ minCol = maxCol →
      fill_linear minCol minRow maxCol maxRow v =
        (List.range (maxCol + 1 - minCol)).map
          (fun i => (minRow, minCol + i, padCell (pyStr v).data i))) ∧
    (minCol = maxCol → ¬ minRow = maxRow →
      fill_linear minCol minRow maxCol maxRow v =
        (List.range (maxRow + 1 - minRow)).map
          (fun i => (minRow + i, minCol, padCell (pyStr v).data i))) ∧
    (¬ minCol = maxCol → ¬ minRow = maxRow →
      (fill_linear minCol minRow maxCol maxRow v).length =
        (maxRow + 1 - minRow) * (maxCol + 1 - minCol) ∧
      ∀ r c, r < maxRow + 1 - minRow → c < maxCol + 1 - minCol →
        (fill_linear minCol minRow maxCol maxRow v).get?
            (r * (maxCol + 1 - minCol) + c) =
          some (minRow + r, minCol + c,
            padCell (pyStr v).data (r * (maxCol + 1 - minCol) + c))) ∧
    fill_linear 1 1 4 1 (ExcelValue.str "ABC") =
      [(1, 1, ExcelValue.str "A"), (1, 2, ExcelValue.str "B"),
       (1, 3, ExcelValue.str "C"), (1, 4, ExcelValue.str "")] := by
  refine ⟨?_, ?_, ?_, ?_, by decide⟩
  · intro h1 h2
    unfold fill_linear
    rw [if_pos (by simp [h1, h2])]
  · intro hrow hcol
    unfold fill_linear
    rw [if_neg (by simp [hcol]), if_pos hrow]
    unfold rowPositions
    rw [fillSeq_range]
    simp
  · intro hcol hrow
    unfold fill_linear
    rw [if_neg (by simp [hrow]), if_neg hrow, if_pos hcol]
    unfold colPositions
    rw [fillSeq_range]
    simp
  · intro hcol hrow
    have hlen1 : ∀ r ∈ List.range (maxRow + 1 - minRow),
        ((fun rr => (List.range (maxCol + 1 - minCol)).map
          (fun c => (minRow + rr, minCol + c))) r).length = maxCol + 1 - minCol := by
      intro r _
      simp
    have hfill : fill_linear minCol minRow maxCol maxRow v =
        fillSeq (pyStr v).data (gridPositions minCol minRow maxCol maxRow) 0 := by
      unfold fill_linear
      rw [if_neg (by simp [hcol]), if_neg hrow, if_neg hcol]
    constructor
    · rw [hfill, fillSeq_length]
      unfold gridPositions
      rw [List.length_flatMap]
      have hmapc : (List.map (List.length ∘ fun r => List.map
          (fun c => (minRow + r, minCol + c)) (List.range (maxCol + 1 - minCol)))
          (List.range (maxRow + 1 - minRow))) =
          List.map (fun _ => maxCol + 1 - minCol) (List.range (maxRow + 1 - minRow)) := by
        apply List.map_congr_left
        intro r _
        simp
      rw [hmapc, List.map_const', List.sum_replicate, List.length_range, smul_eq_mul]
    · intro r c hr hc
      rw [hfill, fillSeq_get?]
      unfold gridPositions
      rw [get?_flatMap_uniform _ (maxCol + 1 - minCol) _ r c hlen1 hc]
      rw [List.get?_range hr, Option.some_bind, List.get?_map, List.get?_range hc]
      simp

/-- C8 witness: extracts the single-cell conclusion at a concrete range. -/
theorem claim_C8_witness :
    fill_linear 2 3 2 3 (ExcelValue.int 5) = [(3, 2, ExcelValue.int 5)] :=
  (claim_C8 2 3 2 3 (ExcelValue.int 5)).1 rfl rfl

/-! ## Writer lemmas: the per-target loop -/

theorem write_targets_loop_notes (wb : Workbook) (tkey fid : String) (passNo : Nat)
    (ev : ExcelValue) :
    ∀ (targets : List (String × String)) (ns : List MappingNote) (ws : List CellWrite),
      write_targets_loop wb tkey fid passNo ev targets = some (ns, ws) →
      ns = (targets.filter (fun t => !(wb.sheetnames.contains t.1))).map
        (fun t => missing_sheet_note fid tkey t.1) := by
  intro targets
  induction targets with
  | nil =>
    intro ns ws h
    simp only [write_targets_loop, Option.some.injEq, Prod.mk.injEq] at h
    simp [← h.1]
  | cons t rest ih =>
    intro ns ws h
    obtain ⟨ts, tc⟩ := t
    unfold write_targets_loop at h
    by_cases hc : wb.sheetnames.contains ts = true
    · rw [if_pos hc] at h
      cases hw : write_to_target tc ev with
      | none => rw [hw] at h; exact absurd h (by simp)
      | some cells =>
        rw [hw] at h
        cases hrec : write_targets_loop wb tkey fid passNo ev rest with
        | none => rw [hrec] at h; exact absurd h (by simp)
        | some p =>
          obtain ⟨ns', ws'⟩ := p
          rw [hrec, Option.some.injEq, Prod.mk.injEq] at h
          rw [← h.1, List.filter_cons_of_neg (by rw [hc]; decide)]
          exact ih ns' ws' hrec
    · rw [if_neg hc] at h
      cases hrec : write_targets_loop wb tkey fid passNo ev rest with
      | none => rw [hrec] at h; exact absurd h (by simp)
      | some p =>
        obtain ⟨ns', ws'⟩ := p
        rw [hrec, Option.some.injEq, Prod.mk.injEq] at h
        have hc2 : wb.sheetnames.contains ts = false := by
          cases h2 : wb.sheetnames.contains ts with
          | false => rfl
          | true => exact absurd h2 hc
        rw [← h.1, List.filter_cons_of_pos (by rw [hc2]; decide)]
        simp only [List.map_cons]
        rw [ih ns' ws' hrec]

theorem write_targets_loop_writes (wb : Workbook) (tkey fid : String) (passNo : Nat)
    (ev : ExcelValue) :
    ∀ (targets : List (String × String)) (ns : List MappingNote) (ws : List CellWrite),
      write_targets_loop wb tkey fid passNo ev targets = some (ns, ws) →
      ∀ w ∈ ws, w.pass = passNo ∧ w.field_id = fid := by
  intro targets
  induction targets with
  | nil =>
    intro ns ws h
    simp only [write_targets_loop, Option.some.injEq, Prod.mk.injEq] at h
    rw [← h.2]
    simp
  | cons t rest ih =>
    intro ns ws h
    obtain ⟨ts, tc⟩ := t
    unfold write_targets_loop at h
    by_cases hc : wb.sheetnames.contains ts = true
    · rw [if_pos hc] at h
      cases hw : write_to_target tc ev with
      | none => rw [hw] at h; exact absurd h (by simp)
      | some cells =>
        rw [hw] at h
        cases hrec : write_targets_loop wb tkey fid passNo ev rest with
        | none => rw [hrec] at h; exact absurd h (by simp)
        | some p =>
          obtain ⟨ns', ws'⟩ := p
          rw [hrec, Option.some.injEq, Prod.mk.injEq] at h
          rw [← h.2]
          intro w hw2
          rcases List.mem_append.mp hw2 with hw2 | hw2
          · rcases List.mem_map.mp hw2 with ⟨c, _, rfl⟩
            exact ⟨rfl, rfl⟩
          · exact ih ns' ws' hrec w hw2
    · rw [if_neg hc] at h
      cases hrec : write_targets_loop wb tkey fid passNo ev rest with
      | none => rw [hrec] at h; exact absurd h (by simp)
      | some p =>
        obtain ⟨ns', ws'⟩ := p
        rw [hrec, Option.some.injEq, Prod.mk.injEq] at h
        rw [← h.2]
        exact ih ns' ws' hrec

theorem write_targets_loop_continues (wb : Workbook) (tkey fid : String) (passNo : Nat)
    (ev : ExcelValue) :
    ∀ (targets : List (String × String)) (ns : List MappingNote) (ws : List CellWrite),
      write_targets_loop wb tkey fid passNo ev targets = some (ns, ws) →
      ∀ t ∈ targets, wb.sheetnames.contains t.1 = true →
        ∃ cells, write_to_target t.2 ev = some cells ∧
          ∀ c ∈ cells, (⟨passNo, fid, t.1, c.1, c.2.1, c.2.2⟩ : CellWrite) ∈ ws := by
  intro targets
  induction targets with
  | nil => intro ns ws _ t ht; simp at ht
  | cons t0 rest ih =>
    intro ns ws h t ht hpresent
    obtain ⟨ts, tc⟩ := t0
    unfold write_targets_loop at h
    by_cases hc : wb.sheetnames.contains ts = true
    · rw [if_pos hc] at h
      cases hw : write_to_target tc ev with
      | none => rw [hw] at h; exact absurd h (by simp)
      | some cells =>
        rw [hw] at h
        cases hrec : write_targets_loop wb tkey fid passNo ev rest with
        | none => rw [hrec] at h; exact absurd h (by simp)
        | some p =>
          obtain ⟨ns', ws'⟩ := p
          rw [hrec, Option.some.injEq, Prod.mk.injEq] at h
          rcases List.mem_cons.mp ht with rfl | ht
          · refine ⟨cells, hw, ?_⟩
            intro c hcc
            rw [← h.2]
            exact List.mem_append.mpr (Or.inl (List.mem_map.mpr ⟨c, hcc, rfl⟩))
          · obtain ⟨cells', hw', hmem⟩ := ih ns' ws' hrec t ht hpresent
            refine ⟨cells', hw', ?_⟩
            intro c hcc
            rw [← h.2]
            exact List.mem_append.mpr (Or.inr (hmem c hcc))
    · rw [if_neg hc] at h
      cases hrec : write_targets_loop wb tkey fid passNo ev rest with
      | none => rw [hrec] at h; exact absurd h (by simp)
      | some p =>
        obtain ⟨ns', ws'⟩ := p
        rw [hrec, Option.some.injEq, Prod.mk.injEq] at h
        rcases List.mem_cons.mp ht with rfl | ht
        · exact absurd hpresent hc
        · obtain ⟨cells', hw', hmem⟩ := ih ns' ws' hrec t ht hpresent
          exact ⟨cells', hw', by rw [← h.2]; exact hmem⟩

/-! ## Writer lemmas: pass bodies and accumulation -/

theorem pass1_field_writes {answers : List (String × String)} {wb : Workbook}
    {tkey fid : String} {conf : XConf} {ns : List MappingNote} {ws : List CellWrite}
    (h : pass1_field answers wb tkey fid conf = some (ns, ws)) :
    ∀ w ∈ ws, w.pass = 1 ∧ w.field_id = fid := by
  simp only [pass1_field] at h
  by_cases hans : lookupStr answers fid = ""
  · rw [if_pos hans, Option.some.injEq, Prod.mk.injEq] at h
    rw [← h.2]
    simp
  rw [if_neg hans] at h
  split at h <;> split at h <;>
    first
      | (rw [Option.some.injEq, Prod.mk.injEq] at h
         rw [← h.2]
         simp)
      | exact write_targets_loop_writes wb tkey fid 1 _ _ ns ws h

theorem pass1_field_notes {answers : List (String × String)} {wb : Workbook}
    {tkey fid : String} {conf : XConf} {ns : List MappingNote} {ws : List CellWrite}
    (h : pass1_field answers wb tkey fid conf = some (ns, ws)) :
    ∀ n ∈ ns, n.field_id = fid := by
  simp only [pass1_field] at h
  by_cases hans : lookupStr answers fid = ""
  · rw [if_pos hans, Option.some.injEq, Prod.mk.injEq] at h
    rw [← h.1]
    simp
  rw [if_neg hans] at h
  split at h <;> split at h <;>
    first
      | (rw [Option.some.injEq, Prod.mk.injEq] at h
         rw [← h.1]
         intro n hn
         rcases List.mem_singleton.mp hn with rfl
         rfl)
      | (have hns := write_targets_loop_notes wb tkey fid 1 _ _ ns ws h
         intro n hn
         rw [hns] at hn
         rcases List.mem_map.mp hn with ⟨t, _, rfl⟩
         rfl)

theorem pass2_field_skip_contains {schema : List SchemaField} {explicit_ids : List String}
    {sff : List String} {wb : Workbook} {tkey fid answer : String}
    {ns : List MappingNote} {ws : List CellWrite}
    (h : pass2_field schema explicit_ids sff wb tkey fid answer = some (ns, ws)) :
    (ns = [] ∧ ws = []) ∨ explicit_ids.contains fid = false := by
  simp only [pass2_field] at h
  by_cases hskip : (answer = "" || explicit_ids.contains fid) = true
  · rw [if_pos hskip, Option.some.injEq, Prod.mk.injEq] at h
    exact Or.inl ⟨h.1.symm, h.2.symm⟩
  · right
    rcases Bool.or_eq_false_iff.mp (Bool.eq_false_iff.mpr hskip) with ⟨_, h2⟩
    exact h2

theorem pass2_field_writes {schema : List SchemaField} {explicit_ids : List String}
    {sff : List String} {wb : Workbook} {tkey fid answer : String}
    {ns : List MappingNote} {ws : List CellWrite}
    (h : pass2_field schema explicit_ids sff wb tkey fid answer = some (ns, ws)) :
    ∀ w ∈ ws, w.pass = 2 ∧ w.field_id = fid := by
  simp only [pass2_field] at h
  by_cases hskip : (answer = "" || explicit_ids.contains fid) = true
  · rw [if_pos hskip, Option.some.injEq, Prod.mk.injEq] at h
    rw [← h.2]
    simp
  rw [if_neg hskip] at h
  cases hfind : schema.find? (fun f => f.field_id == fid) with
  | none =>
    rw [hfind, Option.some.injEq, Prod.mk.injEq] at h
    rw [← h.2]
    simp
  | some field =>
    rw [hfind] at h
    split at h <;> (try split at h) <;> (try split at h) <;> (try split at h) <;>
      first
        | (rw [Option.some.injEq, Prod.mk.injEq] at h
           rw [← h.2]
           simp)
        | exact write_targets_loop_writes wb tkey fid 2 _ _ ns ws h

theorem pass2_field_notes {schema : List SchemaField} {explicit_ids : List String}
    {sff : List String} {wb : Workbook} {tkey fid answer : String}
    {ns : List MappingNote} {ws : List CellWrite}
    (h : pass2_field schema explicit_ids sff wb tkey fid answer = some (ns, ws)) :
    ∀ n ∈ ns, n.field_id = fid := by
  simp only [pass2_field] at h
  by_cases hskip : (answer = "" || explicit_ids.contains fid) = true
  · rw [if_pos hskip, Option.some.injEq, Prod.mk.injEq] at h
    rw [← h.1]
    simp
  rw [if_neg hskip] at h
  cases hfind : schema.find? (fun f => f.field_id == fid) with
  | none =>
    rw [hfind, Option.some.injEq, Prod.mk.injEq] at h
    rw [← h.1]
    simp
  | some field =>
    rw [hfind] at h
    split at h <;> (try split at h) <;> (try split at h) <;> (try split at h) <;>
      first
        | (rw [Option.some.injEq, Prod.mk.injEq] at h
           rw [← h.1]
           simp)
        | (have hns := write_targets_loop_notes wb tkey fid 2 _ _ ns ws h
           intro n hn
           rw [hns] at hn
           rcases List.mem_map.mp hn with ⟨t, _, rfl⟩
           rfl)

theorem accumOpt_cons {α : Type} {f : α → Option (List MappingNote × List CellWrite)}
    {a : α} {l : List α} {ns : List MappingNote} {ws : List CellWrite}
    (h : accumOpt f (a :: l) = some (ns, ws)) :
    ∃ na wa nl wl, f a = some (na, wa) ∧ accumOpt f l = some (nl, wl) ∧
      ns = na ++ nl ∧ ws = wa ++ wl := by
  unfold accumOpt at h
  cases hfa : f a with
  | none => rw [hfa] at h; exact absurd h (by simp)
  | some p =>
    obtain ⟨na, wa⟩ := p
    rw [hfa] at h
    cases hfl : accumOpt f l with
    | none => rw [hfl] at h; exact absurd h (by simp)
    | some q =>
      obtain ⟨nl, wl⟩ := q
      rw [hfl, Option.some.injEq, Prod.mk.injEq] at h
      exact ⟨na, wa, nl, wl, rfl, rfl, h.1.symm, h.2.symm⟩

theorem accumOpt_append {α : Type} {f : α → Option (List MappingNote × List CellWrite)} :
    ∀ {l1 l2 : List α} {ns : List MappingNote} {ws : List CellWrite},
      accumOpt f (l1 ++ l2) = some (ns, ws) →
      ∃ n1 w1 n2 w2, accumOpt f l1 = some (n1, w1) ∧ accumOpt f l2 = some (n2, w2) ∧
        ns = n1 ++ n2 ∧ ws = w1 ++ w2 := by
  intro l1
  induction l1 with
  | nil =>
    intro l2 ns ws h
    exact ⟨[], [], ns, ws, rfl, h, rfl, rfl⟩
  | cons a t ih =>
    intro l2 ns ws h
    rw [List.cons_append] at h
    obtain ⟨na, wa, nl, wl, hfa, hrest, hns, hws⟩ := accumOpt_cons h
    obtain ⟨n1, w1, n2, w2, h1, h2, hn, hw⟩ := ih hrest
    refine ⟨na ++ n1, wa ++ w1, n2, w2, ?_, h2, ?_, ?_⟩
    · unfold accumOpt
      rw [hfa, h1]
    · rw [hns, hn, List.append_assoc]
    · rw [hws, hw, List.append_assoc]

theorem accumOpt_mem_writes {α : Type} {f : α → Option (List MappingNote × List CellWrite)} :
    ∀ {l : List α} {ns : List MappingNote} {ws : List CellWrite},
      accumOpt f l = some (ns, ws) → ∀ w ∈ ws,
        ∃ a ∈ l, ∃ ns' ws', f a = some (ns', ws') ∧ w ∈ ws' := by
  intro l
  induction l with
  | nil =>
    intro ns ws h w hw
    simp only [accumOpt, Option.some.injEq, Prod.mk.injEq] at h
    rw [← h.2] at hw
    simp at hw
  | cons a t ih =>
    intro ns ws h w hw
    obtain ⟨na, wa, nl, wl, hfa, hrest, hns, hws⟩ := accumOpt_cons h
    rw [hws] at hw
    rcases List.mem_append.mp hw with hw | hw
    · exact ⟨a, by simp, na, wa, hfa, hw⟩
    · obtain ⟨b, hb, ns', ws', hfb, hmem⟩ := ih hrest w hw
      exact ⟨b, by simp [hb], ns', ws', hfb, hmem⟩

theorem accumOpt_mem_notes {α : Type} {f : α → Option (List MappingNote × List CellWrite)} :
    ∀ {l : List α} {ns : List MappingNote} {ws : List CellWrite},
      accumOpt f l = some (ns, ws) → ∀ n ∈ ns,
        ∃ a ∈ l, ∃ ns' ws', f a = some (ns', ws') ∧ n ∈ ns' := by
  intro l
  induction l with
  | nil =>
    intro ns ws h n hn
    simp only [accumOpt, Option.some.injEq, Prod.mk.injEq] at h
    rw [← h.1] at hn
    simp at hn
  | cons a t ih =>
    intro ns ws h n hn
    obtain ⟨na, wa, nl, wl, hfa, hrest, hns, hws⟩ := accumOpt_cons h
    rw [hns] at hn
    rcases List.mem_append.mp hn with hn | hn
    · exact ⟨a, by simp, na, wa, hfa, hn⟩
    · obtain ⟨b, hb, ns', ws', hfb, hmem⟩ := ih hrest n hn
      exact ⟨b, by simp [hb], ns', ws', hfb, hmem⟩

theorem string_contains_iff (l : List String) (a : String) :
    l.contains a = true ↔ a ∈ l := by
  show l.elem a = true ↔ a ∈ l
  exact List.elem_iff

/-! ## Writer lemmas: one template -/

/-- Any pass-2 write of a processed template names a field outside the
template's explicit-mapping key set. -/
theorem process_template_pass2_not_explicit {answers : List (String × String)}
    {schema : List SchemaField} {fs : List (String × Workbook)} {tpl : TemplateSpec}
    {res : TemplateResult}
    (h : process_template answers schema fs tpl = some res) :
    ∀ w ∈ res.writes, w.pass = 2 →
      (tpl.mappings.map Prod.fst).contains w.field_id = false := by
  simp only [process_template] at h
  split at h
  · rw [Option.some.injEq] at h
    rw [← h]
    simp
  split at h
  · rw [Option.some.injEq] at h
    rw [← h]
    simp
  split at h
  · exact absurd h (by simp)
  next n1 w1 heq1 =>
    split at h
    · exact absurd h (by simp)
    next n2 w2 heq2 =>
      rw [Option.some.injEq] at h
      intro w hw hp
      rw [← h] at hw
      rcases List.mem_append.mp hw with hw | hw
      · obtain ⟨a, _, ns', ws', hfa, hmem⟩ := accumOpt_mem_writes heq1 w hw
        have := (pass1_field_writes hfa w hmem).1
        omega
      · obtain ⟨a, _, ns', ws', hfa, hmem⟩ := accumOpt_mem_writes heq2 w hw
        rcases pass2_field_skip_contains hfa with ⟨_, hws⟩ | hc
        · rw [hws] at hmem
          simp at hmem
        · rw [(pass2_field_writes hfa w hmem).2]
          exact hc

/-- A template whose source workbook is found and is not `.xls` processes
through both passes and saves its output. -/
theorem process_template_found {answers : List (String × String)}
    {schema : List SchemaField} {fs : List (String × Workbook)} {tpl : TemplateSpec}
    {res : TemplateResult} {wbp : String × Workbook}
    (hfind : fs.find? (fun p => p.1 == pyStrip tpl.source_file) = some wbp)
    (hxls : lowerStr (pySuffix (pyStrip tpl.source_file)) ≠ ".xls")
    (h : process_template answers schema fs tpl = some res) :
    ∃ n1 w1 n2 w2,
      accumOpt (fun p : String × XConf => pass1_field answers wbp.2
        (pyStrip (tpl.template_key.getD (pyStrip tpl.source_file))) p.1 p.2)
        tpl.mappings = some (n1, w1) ∧
      accumOpt (fun p : String × String => pass2_field schema (tpl.mappings.map Prod.fst)
        (((if tpl.source_form_files.isEmpty then [pyStrip tpl.source_file]
           else tpl.source_form_files).map pyStrip).filter (fun x => x ≠ ""))
        wbp.2 (pyStrip (tpl.template_key.getD (pyStrip tpl.source_file))) p.1 p.2)
        answers = some (n2, w2) ∧
      res = ⟨some (output_name tpl), n1 ++ n2, w1 ++ w2⟩ := by
  simp only [process_template] at h
  split at h
  · rename_i heq
    rw [hfind] at heq
    exact absurd heq (by simp)
  · rename_i wbp' heq
    rw [hfind, Option.some.injEq] at heq
    subst heq
    rw [if_neg hxls] at h
    split at h
    · exact absurd h (by simp)
    next n1 w1 heq1 =>
      split at h
      · exact absurd h (by simp)
      next n2 w2 heq2 =>
        rw [Option.some.injEq] at h
        exact ⟨n1, w1, n2, w2, heq1, heq2, h.symm⟩

/-! ## Writer lemmas: the template fold -/

theorem write_templates_go_writes {answers : List (String × String)}
    {schema : List SchemaField} {fs : List (String × Workbook)} :
    ∀ (ts : List TemplateSpec) (start : Nat) (res : WriteResult),
      write_templates_go answers schema fs start ts = some res →
      ∀ i w, (i, w) ∈ res.writes →
        ∃ j tpl r, ts.get? j = some tpl ∧ i = start + j ∧
          process_template answers schema fs tpl = some r ∧ w ∈ r.writes := by
  intro ts
  induction ts with
  | nil =>
    intro start res h i w hw
    simp only [write_templates_go, Option.some.injEq] at h
    rw [← h] at hw
    simp at hw
  | cons t rest ih =>
    intro start res h i w hw
    unfold write_templates_go at h
    cases hp : process_template answers schema fs t with
    | none => rw [hp] at h; exact absurd h (by simp)
    | some r =>
      rw [hp] at h
      cases hg : write_templates_go answers schema fs (start + 1) rest with
      | none => rw [hg] at h; exact absurd h (by simp)
      | some res' =>
        rw [hg, Option.some.injEq] at h
        rw [← h] at hw
        rcases List.mem_append.mp hw with hw | hw
        · rcases List.mem_map.mp hw with ⟨w0, hw0, heq⟩
          obtain ⟨h1, h2⟩ := Prod.mk.injEq .. |>.mp heq
          refine ⟨0, t, r, rfl, by omega, hp, ?_⟩
          rw [← h2]
          exact hw0
        · obtain ⟨j, tpl, r', hj, hi, hpt, hmem⟩ := ih (start + 1) res' hg i w hw
          refine ⟨j + 1, tpl, r', ?_, by omega, hpt, hmem⟩
          simp only [List.get?_cons_succ]
          exact hj

theorem write_templates_go_outputs {answers : List (String × String)}
    {schema : List SchemaField} {fs : List (String × Workbook)} :
    ∀ (ts : List TemplateSpec) (start : Nat) (res : WriteResult),
      write_templates_go answers schema fs start ts = some res →
      ∀ j tpl, ts.get? j = some tpl →
        ∃ r, process_template answers schema fs tpl = some r ∧
          ∀ o, r.output = some o → o ∈ res.output_files := by
  intro ts
  induction ts with
  | nil =>
    intro start res h j tpl hj
    simp at hj
  | cons t rest ih =>
    intro start res h j tpl hj
    unfold write_templates_go at h
    cases hp : process_template answers schema fs t with
    | none => rw [hp] at h; exact absurd h (by simp)
    | some r =>
      rw [hp] at h
      cases hg : write_templates_go answers schema fs (start + 1) rest with
      | none => rw [hg] at h; exact absurd h (by simp)
      | some res' =>
        rw [hg, Option.some.injEq] at h
        cases j with
        | zero =>
          rw [List.get?_cons_zero, Option.some.injEq] at hj
          subst hj
          refine ⟨r, hp, ?_⟩
          intro o ho
          rw [← h]
          simp [ho]
        | succ j' =>
          rw [List.get?_cons_succ] at hj
          obtain ⟨r', hpt, hout⟩ := ih (start + 1) res' hg j' tpl hj
          refine ⟨r', hpt, ?_⟩
          intro o ho
          rw [← h]
          cases hro : r.output with
          | none => simpa using hout o ho
          | some o' =>
            simp only [hro]
            exact List.mem_cons_of_mem _ (hout o ho)

/-! ## Claim C2 (explicit mappings exclude auto-mapping) -/

/-- C2: in a `write_templates` run, no pass-2 (auto-mapping) write ever
names a field that has an explicit mapping entry in the template that
performed the write — pass 2 skips the whole explicit key set by a
membership test, whether or not the explicit mapping succeeded. -/
theorem claim_C2 (answers : List (String × String)) (schema : List SchemaField)
    (fs : List (String × Workbook)) (templates : List TemplateSpec) (res : WriteResult)
    (i : Nat) (w : CellWrite) (tpl : TemplateSpec)
    (hres : write_templates answers schema fs templates = some res)
    (hw : (i, w) ∈ res.writes) (hp : w.pass = 2)
    (htpl : templates.get? i = some tpl) :
    ¬ w.field_id ∈ tpl.mappings.map Prod.fst := by
  obtain ⟨j, tpl', r, hj, hi, hpt, hmem⟩ :=
    write_templates_go_writes templates 0 res hres i w hw
  obtain rfl : i = j := by omega
  obtain rfl : tpl' = tpl := Option.some.inj (hj.symm.trans htpl)
  intro hmemk
  have hc := process_template_pass2_not_explicit hpt w hmem hp
  rw [(string_contains_iff _ _).mpr hmemk] at hc
  simp at hc

/-- C2 witness: a run with one explicit field `f` and one auto-mapped
field `g`; the pass-2 write of `g` is not in the explicit key set. -/
theorem claim_C2_witness :
    ¬ (⟨2, "g", "S", 2, 2, ExcelValue.str "y"⟩ : CellWrite).field_id ∈
      ([("f", (⟨"S", "A1", "text"⟩ : XConf))].map Prod.fst) :=
  claim_C2 [("f", "x"), ("g", "y")] [⟨"g", "t.xlsx", "S!B2", "", ""⟩]
    [("t.xlsx", ⟨["S"]⟩)] [⟨"t.xlsx", "out.xlsx", none, [("f", ⟨"S", "A1", "text"⟩)], []⟩]
    ⟨["out.xlsx"], [],
      [(0, ⟨1, "f", "S", 1, 1, ExcelValue.str "x"⟩), (0, ⟨2, "g", "S", 2, 2, ExcelValue.str "y"⟩)]⟩
    0 ⟨2, "g", "S", 2, 2, ExcelValue.str "y"⟩ ⟨"t.xlsx", "out.xlsx", none, [("f", ⟨"S", "A1", "text"⟩)], []⟩
    (by decide) (by decide) rfl rfl

/-! ## Claim C9 (per-target diagnostics, corrected) -/

/-- C9 counterexample: an unresolved cell-expression segment does NOT
produce a warning note when another segment of the same expression
resolves — the segment `A1` (no sheet qualifier, no default sheet) is
dropped silently, the run emits zero notes and still writes the resolved
target `S!B2`. -/
theorem claim_C9_counterexample :
    parse_target_segment "A1" none = none ∧
    process_template [("g", "y")] [⟨"g", "t.xlsx", "A1;S!B2", "", ""⟩]
        [("t.xlsx", ⟨["S"]⟩)] ⟨"t.xlsx", "out.xlsx", none, [], []⟩ =
      some ⟨some "out.xlsx", [], [⟨2, "g", "S", 2, 2, ExcelValue.str "y"⟩]⟩ :=
  ⟨by decide, by decide⟩

/-- C9 (amended): in a processed template (source found, not `.xls`,
distinct explicit keys), for an explicit mapping of field `fid` with a
non-empty answer: when the whole cell expression resolves to no targets
the template run emits exactly one warning note for `fid` (the invalid
mapping cell note); when some targets resolve, the notes for `fid` are
exactly one missing-sheet warning per resolved target whose sheet is
absent — unresolved segments alongside a resolved one yield no note — and
writing continues: every resolved target with a present sheet has all its
cell writes in the run's write set. -/
theorem claim_C9 (answers : List (String × String)) (schema : List SchemaField)
    (fs : List (String × Workbook)) (tpl : TemplateSpec) (res : TemplateResult)
    (wbp : String × Workbook) (fid : String) (conf : XConf)
    (tkey : String) (ts : List (String × String)) (ev : ExcelValue)
    (hres : process_template answers schema fs tpl = some res)
    (hfind : fs.find? (fun p => p.1 == pyStrip tpl.source_file) = some wbp)
    (hxls : lowerStr (pySuffix (pyStrip tpl.source_file)) ≠ ".xls")
    (hkeys : (tpl.mappings.map Prod.fst).Nodup)
    (hmem : (fid, conf) ∈ tpl.mappings)
    (hans : lookupStr answers fid ≠ "")
    (htkey : tkey = pyStrip (tpl.template_key.getD (pyStrip tpl.source_file)))
    (hts : ts = parse_targets
      (if pyStrip conf.sheet ≠ "" && !strHas (pyStrip conf.cell) "!" then
        pyStrip conf.sheet ++ "!" ++ pyStrip conf.cell
      else pyStrip conf.cell) none)
    (hev : ev = to_excel_value (lookupStr answers fid) (pyStrip conf.vtype)) :
    (ts = [] → res.notes.filter (fun n => n.field_id == fid) = [invalid_cell_note fid tkey]) ∧
    (ts ≠ [] →
      res.notes.filter (fun n => n.field_id == fid) =
        (ts.filter (fun t => !(wbp.2.sheetnames.contains t.1))).map
          (fun t => missing_sheet_note fid tkey t.1) ∧
      ∀ t ∈ ts, wbp.2.sheetnames.contains t.1 = true →
        ∃ cells, write_to_target t.2 ev = some cells ∧
          ∀ c ∈ cells, (⟨1, fid, t.1, c.1, c.2.1, c.2.2⟩ : CellWrite) ∈ res.writes) := by
  obtain ⟨n1, w1, n2, w2, heq1, heq2, hr⟩ := process_template_found hfind hxls hres
  obtain ⟨l1, l2, hsplit⟩ := List.append_of_mem hmem
  rw [hsplit] at heq1
  obtain ⟨n1a, w1a, nrest, wrest, ha, hrest, hn1, hw1⟩ := accumOpt_append heq1
  obtain ⟨nf, wf, n1b, w1b, hf, hb, hnr, hwr⟩ := accumOpt_cons hrest
  have hkeys' := hkeys
  rw [hsplit, List.map_append, List.map_cons] at hkeys'
  have hni1 : ∀ p ∈ l1, p.1 ≠ fid := by
    intro p hp heq
    have h1 : fid ∈ l1.map Prod.fst := List.mem_map.mpr ⟨p, hp, heq⟩
    have hd := List.disjoint_of_nodup_append hkeys'
    exact hd h1 (by simp)
  have hni2 : ∀ p ∈ l2, p.1 ≠ fid := by
    intro p hp heq
    have h2 := (List.nodup_append.mp hkeys').2.1
    rw [List.nodup_cons] at h2
    exact h2.1 (List.mem_map.mpr ⟨p, hp, heq⟩)
  have hf' : pass1_field answers wbp.2 tkey fid conf = some (nf, wf) := by
    rw [htkey]
    exact hf
  -- the pass-1 body for `fid`, with the answer known non-empty
  have hfeq : (if ts.isEmpty then some ([invalid_cell_note fid tkey], ([] : List CellWrite))
      else write_targets_loop wbp.2 tkey fid 1 ev ts) = some (nf, wf) := by
    rw [← hf']
    simp only [pass1_field]
    rw [if_neg hans, hts, hev]
  -- notes of the other pass-1 fields never mention `fid`
  have hfil1a : n1a.filter (fun n => n.field_id == fid) = [] := by
    rw [List.filter_eq_nil_iff]
    intro n hn
    obtain ⟨p, hp, ns', ws', hfp, hmemn⟩ := accumOpt_mem_notes ha n hn
    rw [pass1_field_notes hfp n hmemn]
    simp [hni1 p hp]
  have hfil1b : n1b.filter (fun n => n.field_id == fid) = [] := by
    rw [List.filter_eq_nil_iff]
    intro n hn
    obtain ⟨p, hp, ns', ws', hfp, hmemn⟩ := accumOpt_mem_notes hb n hn
    rw [pass1_field_notes hfp n hmemn]
    simp [hni2 p hp]
  -- pass-2 notes never mention `fid` (it is an explicit key)
  have hfil2 : n2.filter (fun n => n.field_id == fid) = [] := by
    rw [List.filter_eq_nil_iff]
    intro n hn
    obtain ⟨p, hp, ns', ws', hfp, hmemn⟩ := accumOpt_mem_notes heq2 n hn
    rcases pass2_field_skip_contains hfp with ⟨hns, _⟩ | hc
    · rw [hns] at hmemn
      simp at hmemn
    · rw [pass2_field_notes hfp n hmemn]
      intro hbeq
      have heqf : p.1 = fid := by simpa using hbeq
      rw [heqf, (string_contains_iff _ _).mpr (by
        rw [hsplit, List.map_append, List.map_cons]
        simp)] at hc
      simp at hc
  have hffix : ∀ m : List MappingNote, (∀ n ∈ m, n.field_id = fid) →
      m.filter (fun n => n.field_id == fid) = m := by
    intro m hm
    apply List.filter_eq_self.mpr
    intro n hn
    simp [hm n hn]
  have hnotes : res.notes.filter (fun n => n.field_id == fid) =
      nf.filter (fun n => n.field_id == fid) := by
    rw [hr]
    show ((n1 ++ n2).filter (fun n => n.field_id == fid)) = _
    rw [hn1, hnr]
    rw [List.filter_append, List.filter_append, List.filter_append,
      hfil1a, hfil1b, hfil2]
    simp
  constructor
  · intro htse
    rw [htse] at hfeq
    rw [if_pos (by simp)] at hfeq
    rw [Option.some.injEq, Prod.mk.injEq] at hfeq
    rw [hnotes, ← hfeq.1]
    rw [hffix _ (by intro n hn; rcases List.mem_singleton.mp hn with rfl; rfl)]
  · intro htsne
    rw [if_neg (by simpa using htsne)] at hfeq
    constructor
    · rw [hnotes]
      have hnf := write_targets_loop_notes wbp.2 tkey fid 1 ev ts nf wf hfeq
      rw [hnf]
      apply hffix
      intro n hn
      rcases List.mem_map.mp hn with ⟨t, _, rfl⟩
      rfl
    · intro t ht hpresent
      obtain ⟨cells, hcw, hcm⟩ :=
        write_targets_loop_continues wbp.2 tkey fid 1 ev ts nf wf hfeq t ht hpresent
      refine ⟨cells, hcw, ?_⟩
      intro c hc
      rw [hr]
      show _ ∈ w1 ++ w2
      rw [hw1, hwr]
      exact List.mem_append.mpr (Or.inl (List.mem_append.mpr (Or.inr
        (List.mem_append.mpr (Or.inl (hcm c hc))))))

/-- C9 amended witness: one explicit field with one absent-sheet target
and one present-sheet target. -/
theorem claim_C9_witness :
    (([("Z", "A1"), ("S", "B2")] : List (String × String)) = [] →
      (MappingNote.mk "f" "t.xlsx" "warning" "シートが見つかりません: Z" ::
        ([] : List MappingNote)).filter (fun n => n.field_id == "f") =
        [invalid_cell_note "f" "t.xlsx"]) ∧
    (([("Z", "A1"), ("S", "B2")] : List (String × String)) ≠ [] →
      (MappingNote.mk "f" "t.xlsx" "warning" "シートが見つかりません: Z" ::
        ([] : List MappingNote)).filter (fun n => n.field_id == "f") =
        ((([("Z", "A1"), ("S", "B2")] : List (String × String)).filter
          (fun t => !((Workbook.mk ["S"]).sheetnames.contains t.1))).map
          (fun t => missing_sheet_note "f" "t.xlsx" t.1)) ∧
      ∀ t ∈ ([("Z", "A1"), ("S", "B2")] : List (String × String)),
        (Workbook.mk ["S"]).sheetnames.contains t.1 = true →
        ∃ cells, write_to_target t.2 (ExcelValue.str "x") = some cells ∧
          ∀ c ∈ cells, (⟨1, "f", t.1, c.1, c.2.1, c.2.2⟩ : CellWrite) ∈
            [(⟨1, "f", "S", 2, 2, ExcelValue.str "x"⟩ : CellWrite)]) :=
  claim_C9 [("f", "x")] [] [("t.xlsx", ⟨["S"]⟩)]
    ⟨"t.xlsx", "out.xlsx", none, [("f", ⟨"", "Z!A1;S!B2", "text"⟩)], []⟩
    ⟨some "out.xlsx", [⟨"f", "t.xlsx", "warning", "シートが見つかりません: Z"⟩],
      [⟨1, "f", "S", 2, 2, ExcelValue.str "x"⟩]⟩
    ("t.xlsx", ⟨["S"]⟩) "f" ⟨"", "Z!A1;S!B2", "text"⟩ "t.xlsx"
    [("Z", "A1"), ("S", "B2")] (ExcelValue.str "x")
    (by decide) (by decide) (by decide) (by decide) (by decide) (by decide)
    (by decide) (by decide) (by decide)

/-! ## Claim C10 (output saved for every processable template, corrected) -/

/-- C10 counterexample: a template whose source exists and is not `.xls`,
but whose explicit mapping names a malformed cell reference (`bad`, no row
number): openpyxl's coordinate parser raises, the exception escapes
`write_templates`, and no output file list is returned at all — the
template's output is not saved even though its source was processable. -/
theorem claim_C10_counterexample :
    (([("t.xlsx", (⟨["S"]⟩ : Workbook))].find? (fun p => p.1 == pyStrip "t.xlsx")).isSome
        = true) ∧
    lowerStr (pySuffix (pyStrip "t.xlsx")) ≠ ".xls" ∧
    write_templates [("f", "x")] [] [("t.xlsx", ⟨["S"]⟩)]
      [⟨"t.xlsx", "out.xlsx", none, [("f", ⟨"S", "bad", "text"⟩)], []⟩] = none :=
  ⟨by decide, by decide, by decide⟩

/-- C10 (amended): whenever `write_templates` completes without an
exception, every template whose source file exists and is not a legacy
`.xls` file has saved an output document and its output filename is in the
returned output file list — even if every per-field write was skipped or
produced only warning notes.  (As the counterexample shows, a run that
raises — e.g. on a malformed cell reference — returns nothing at all, so
the completion hypothesis is necessary.) -/
theorem claim_C10 (answers : List (String × String)) (schema : List SchemaField)
    (fs : List (String × Workbook)) (templates : List TemplateSpec) (res : WriteResult)
    (i : Nat) (tpl : TemplateSpec) (wbp : String × Workbook)
    (hres : write_templates answers schema fs templates = some res)
    (hi : templates.get? i = some tpl)
    (hfind : fs.find? (fun p => p.1 == pyStrip tpl.source_file) = some wbp)
    (hxls : lowerStr (pySuffix (pyStrip tpl.source_file)) ≠ ".xls") :
    output_name tpl ∈ res.output_files := by
  obtain ⟨r, hpt, hout⟩ := write_templates_go_outputs templates 0 res hres i tpl hi
  obtain ⟨n1, w1, n2, w2, _, _, hr⟩ := process_template_found hfind hxls hpt
  exact hout _ (by rw [hr])

/-- C10 amended witness: a template with no successful field write (its
only answer is empty) still saves an unmodified copy under the default
`filled_` name. -/
theorem claim_C10_witness :
    output_name ⟨"t.xlsx", "", none, [("f", ⟨"S", "A1", "text"⟩)], []⟩ ∈
      (⟨["filled_t.xlsx"], [], []⟩ : WriteResult).output_files :=
  claim_C10 [("f", "")] [] [("t.xlsx", ⟨["S"]⟩)]
    [⟨"t.xlsx", "", none, [("f", ⟨"S", "A1", "text"⟩)], []⟩]
    ⟨["filled_t.xlsx"], [], []⟩ 0 ⟨"t.xlsx", "", none, [("f", ⟨"S", "A1", "text"⟩)], []⟩
    ("t.xlsx", ⟨["S"]⟩) (by decide) rfl (by decide) (by decide)

end Billing
